import Mathlib

/-!
Verification development for the timetable scheduling engine
(`timetable/simple_solver.py` and `timetable/ortools_solver.py`).

The Python source is shallowly embedded: dictionaries become association
lists, sets become lists with membership semantics, f-string slot keys are
string concatenations, and the `random.uniform` tie-break factor becomes an
oracle parameter `rnd` supplied to every scheduling step (all theorems
quantify over the oracle).  Python's stable `list.sort(key=...)` is embedded
as `List.insertionSort` with the corresponding key order, which is also a
stable sort and hence produces the identical list.
-/

namespace Timetable

/-! ### String helpers mirroring the Python string operations -/

/-- Python `str.lower()` (ASCII inputs). -/
def py_lower (s : String) : String := ⟨s.data.map Char.toLower⟩

/-- Python `str.strip()`: drop leading and trailing whitespace. -/
def py_strip (s : String) : String :=
  ⟨((s.data.dropWhile Char.isWhitespace).reverse.dropWhile Char.isWhitespace).reverse⟩

/-- Split a character list at every character satisfying `p`, keeping empty groups. -/
def split_chars (p : Char → Bool) : List Char → List (List Char)
  | [] => [[]]
  | c :: cs =>
    match split_chars p cs with
    | [] => if p c then [[], []] else [[c]]
    | g :: gs => if p c then [] :: g :: gs else (c :: g) :: gs

/-- Python `s.split(sep)` for a one-character separator. -/
def py_split_on (sep : Char) (s : String) : List String :=
  (split_chars (fun c => c = sep) s.data).map (fun g => ⟨g⟩)

/-- Python `s.split()`: split on whitespace runs, discarding empty pieces. -/
def py_split_ws (s : String) : List String :=
  ((split_chars Char.isWhitespace s.data).filter (fun g => g ≠ [])).map (fun g => ⟨g⟩)

/-- Python `c in s` for a single character. -/
def str_contains_char (s : String) (c : Char) : Bool := s.data.contains c

/-- Lexicographic `≤` on character lists by code point, as Python compares strings. -/
def chars_le : List Char → List Char → Bool
  | [], _ => true
  | _ :: _, [] => false
  | a :: as, b :: bs => if a = b then chars_le as bs else decide (a < b)

/-- Python `a <= b` on strings (lexicographic by code point). -/
def py_str_le (a b : String) : Bool := chars_le a.data b.data

/-- Python `needle in hay` for strings (contiguous substring test). -/
def sub_chars (needle hay : List Char) : Bool :=
  match hay with
  | [] => needle = []
  | _ :: t => needle.isPrefixOf hay || sub_chars needle t

/-- Python `needle in hay` on strings. -/
def str_contains_sub (hay needle : String) : Bool := sub_chars needle.data hay.data

/-- Lookup in an association list embedding a Python `dict` (`m.get(k)` / `k in m`). -/
def lookup_str (m : List (String × String)) (k : String) : Option String :=
  (m.find? (fun p => p.1 == k)).map (fun p => p.2)

/-! ### Canonical grids and tables (`SimpleTimetableSolver.__init__`) -/

/-- `self.days`. -/
def days : List String := ["Monday", "Tuesday", "Wednesday", "Thursday", "Friday"]

/-- `self.time_slots`: the canonical 9-band grid. -/
def time_slots : List String :=
  ["09:00-10:00", "10:00-11:00", "11:00-12:00", "12:00-13:00",
   "13:00-14:00", "14:00-15:00", "15:00-16:00", "16:00-17:00", "17:00-18:00"]

/-- `self.core_courses`: cohort groups keyed by program. -/
def core_courses : List (String × List String) :=
  [("computer_science",
    ["data structures", "software engineering", "computer networks",
     "database systems", "algorithms", "operating systems",
     "computer graphics", "machine learning", "artificial intelligence"]),
   ("information_technology",
    ["data structures", "database systems", "computer networks",
     "web development", "software engineering", "cyber security"])]

/-- `self.slot_mapping`: the legacy digit-to-band table (lines 63-66). -/
def slot_mapping : List (String × String) :=
  [("1", "09:00-10:00"), ("2", "10:00-11:00"), ("3", "11:00-12:00"), ("4", "12:00-13:00"),
   ("5", "13:00-14:00"), ("6", "14:00-15:00"), ("7", "15:00-16:00"), ("8", "16:00-17:00"),
   ("9", "17:00-18:00")]

/-- `self.day_mapping`: 3-letter day abbreviations. -/
def day_mapping : List (String × String) :=
  [("Mon", "Monday"), ("Tue", "Tuesday"), ("Wed", "Wednesday"),
   ("Thu", "Thursday"), ("Fri", "Friday")]

/-! ### Availability resolver (`parse_availability_slots`, lines 142-217) -/

/-- `all_time_slots` local to `parse_availability_slots`. -/
def all_time_slots : List String :=
  ["09:00-10:00", "10:00-11:00", "11:00-12:00", "12:00-13:00",
   "13:00-14:00", "14:00-15:00", "15:00-16:00", "16:00-17:00", "17:00-18:00"]

/-- The enhanced `day_mapping` local to `parse_availability_slots`. -/
def parse_day_mapping : List (String × String) :=
  [("monday", "Monday"), ("tuesday", "Tuesday"), ("wednesday", "Wednesday"),
   ("thursday", "Thursday"), ("friday", "Friday"),
   ("mon", "Monday"), ("tue", "Tuesday"), ("wed", "Wednesday"),
   ("thu", "Thursday"), ("fri", "Friday")]

/-- The `time_map` local to `parse_availability_slots`. -/
def time_map : List (String × String) :=
  [("9am", "09:00-10:00"), ("10am", "10:00-11:00"), ("11am", "11:00-12:00"),
   ("12pm", "12:00-13:00"), ("2pm", "14:00-15:00"), ("3pm", "15:00-16:00"),
   ("4pm", "16:00-17:00"), ("5pm", "17:00-18:00")]

/-- One iteration of the token loop in `parse_availability_slots`: the slots
appended for a single comma-separated token. -/
def parse_one_token (raw : String) : List (String × String) :=
  let slot := py_lower (py_strip raw)
  if slot = "" then []
  else
    match lookup_str parse_day_mapping slot with
    | some day => all_time_slots.map (fun ts => (day, ts))
    | none =>
      if str_contains_char slot ' ' then
        match py_split_ws slot with
        | [] => []
        | day_part :: rest =>
          let time_part := String.intercalate " " rest
          match lookup_str parse_day_mapping day_part with
          | some day =>
            match lookup_str time_map time_part with
            | some t => [(day, t)]
            | none => all_time_slots.map (fun ts => (day, ts))
          | none => []
      else
        if slot.length ≤ 4 && slot.data.any Char.isAlpha then
          let day_part : String := ⟨slot.data.filter Char.isAlpha⟩
          match lookup_str parse_day_mapping day_part with
          | some day => all_time_slots.map (fun ts => (day, ts))
          | none => []
        else []

/-- `parse_availability_slots` on a string argument: split on commas,
accumulate the per-token slots in order. -/
def parse_availability_slots (availability_str : String) : List (String × String) :=
  ((py_split_on ',' availability_str).map parse_one_token).flatten

example : parse_one_token "monday 10am" = [("Monday", "10:00-11:00")] := by decide
example : parse_one_token "Mon2" = all_time_slots.map (fun ts => ("Monday", ts)) := by decide

/-! ### Cohort-conflict predicates (lines 235-267) -/

/-- `_normalize_course_name`: lower-case, strip, and drop a parenthesized
qualifier such as `(lecture)` or `(lab)`. -/
def normalize_course_name (name : String) : String :=
  let n := py_lower (py_strip name)
  if str_contains_char n '(' && str_contains_char n ')' then
    py_strip ⟨n.data.takeWhile (fun c => c ≠ '(')⟩
  else n

/-- `_courses_conflict`: same normalized base never conflicts; otherwise both
bases must sit in one cohort group. -/
def courses_conflict (course1 course2 : String) : Bool :=
  let base1 := normalize_course_name course1
  let base2 := normalize_course_name course2
  if base1 = base2 then false
  else core_courses.any (fun g => g.2.contains base1 && g.2.contains base2)

/-! ### Solver state (`SimpleTimetableSolver.__init__` data structures) -/

/-- One scheduled entry appended to `self.scheduled_slots[day][time_slot]`. -/
structure Session where
  course : String
  faculty : String
  room : String
  duration : Nat
  session_type : String
deriving DecidableEq, Repr

/-- Per-day schedule: `time_slot -> list of sessions` in insertion order. -/
abbrev DaySched := List (String × List Session)

/-- `self.scheduled_slots`: `day -> per-day schedule` in insertion order. -/
abbrev Sched := List (String × DaySched)

/-- The mutable solver state; Python dict/set fields become association
lists with membership semantics. -/
structure SolverState where
  scheduled_slots : Sched
  faculty_schedule : List (String × String)
  room_schedule : List (String × String)
  course_schedule : List (String × String)
  global_slot_usage : List String
  day_load : List (String × Nat)
  faculty_day_load : List ((String × String) × Nat)
  actual_weekly : List (String × Nat)
  expected_weekly : List (String × Nat)
  failure_reasons : List (String × String)
  allow_parallel : Bool
  max_faculty_sessions_per_day : Nat
deriving DecidableEq, Repr

/-- Counter lookup with `defaultdict(int)` semantics. -/
def lookupN {α : Type} [DecidableEq α] (m : List (α × Nat)) (k : α) : Nat :=
  match m.find? (fun p => p.1 = k) with
  | some p => p.2
  | none => 0

/-- Counter increment with `defaultdict(int)` semantics. -/
def bumpN {α : Type} [DecidableEq α] (m : List (α × Nat)) (k : α) : List (α × Nat) :=
  match m with
  | [] => [(k, 1)]
  | p :: rest => if p.1 = k then (p.1, p.2 + 1) :: rest else p :: bumpN rest k

/-- Keyed lookup with a supplied default. -/
def lookupL {α β : Type} [DecidableEq α] (m : List (α × β)) (k : α) (d : β) : β :=
  match m.find? (fun p => p.1 = k) with
  | some p => p.2
  | none => d

/-- `dict.setdefault`-style insert used for `failure_reasons` (only set when
the key is absent). -/
def set_if_absent (m : List (String × String)) (k v : String) : List (String × String) :=
  if (m.find? (fun p => p.1 = k)).isSome then m else m ++ [(k, v)]

/-- The reset state produced at the top of `solve_timetable` (a fresh
`SimpleTimetableSolver` after `clear()` of every structure). -/
def init_state : SolverState :=
  { scheduled_slots := [], faculty_schedule := [], room_schedule := [],
    course_schedule := [], global_slot_usage := [], day_load := [],
    faculty_day_load := [], actual_weekly := [], expected_weekly := [],
    failure_reasons := [], allow_parallel := false,
    max_faculty_sessions_per_day := 5 }

/-- `f"{day}_{time_slot}"`. -/
def slot_key (day ts : String) : String := day ++ "_" ++ ts

/-- `is_slot_available` (lines 219-233). -/
def is_slot_available (st : SolverState) (day ts faculty room : String) : Bool :=
  let k := slot_key day ts
  if !st.allow_parallel && st.global_slot_usage.contains k then false
  else if st.faculty_schedule.contains (faculty, k) then false
  else if st.room_schedule.contains (room, k) then false
  else true

/-- Courses recorded at a slot key in `self.course_schedule`. -/
def courses_at (st : SolverState) (k : String) : List String :=
  st.course_schedule.filterMap (fun p => if p.1 = k then some p.2 else none)

/-- `has_student_conflict` (lines 235-248). -/
def has_student_conflict (st : SolverState) (day ts course_name : String) : Bool :=
  let k := slot_key day ts
  (courses_at st k).any (fun existing => courses_conflict (py_lower course_name) (py_lower existing))

/-- Append a session at an existing or fresh `time_slot` key of one day's
dictionary (`if ts not in ...: ... = []` then `append`). -/
def day_append (dsched : DaySched) (ts : String) (s : Session) : DaySched :=
  match dsched with
  | [] => [(ts, [s])]
  | p :: rest => if p.1 = ts then (p.1, p.2 ++ [s]) :: rest else p :: day_append rest ts s

/-- Append a session at `scheduled_slots[day][time_slot]`, creating the inner
containers exactly as the Python commit blocks do. -/
def sched_append (sched : Sched) (day ts : String) (s : Session) : Sched :=
  match sched with
  | [] => [(day, [(ts, [s])])]
  | d :: rest =>
    if d.1 = day then (d.1, day_append d.2 ts s) :: rest
    else d :: sched_append rest day ts s

/-- The commit block repeated verbatim in `_schedule_one_lecture_session`
(lines 465-486), `_schedule_one_lab_block` (lines 553-575) and the legacy
paths: book faculty, room, global slot, loads, course set, timetable entry
and the weekly counter for one `(day, time_slot)` cell. -/
def commit_slot (st : SolverState) (day ts : String) (s : Session) : SolverState :=
  let k := slot_key day ts
  { st with
    faculty_schedule := (s.faculty, k) :: st.faculty_schedule
    room_schedule := (s.room, k) :: st.room_schedule
    global_slot_usage :=
      if !st.allow_parallel then k :: st.global_slot_usage else st.global_slot_usage
    day_load := bumpN st.day_load day
    faculty_day_load := bumpN st.faculty_day_load (s.faculty, day)
    course_schedule := (k, s.course) :: st.course_schedule
    scheduled_slots := sched_append st.scheduled_slots day ts s
    actual_weekly := bumpN st.actual_weekly s.course }

/-! ### Time tables and preferences (lines 803-825) -/

/-- `time_order` local to `_get_time_index` (same 9 bands). -/
def time_order : List String :=
  ["09:00-10:00", "10:00-11:00", "11:00-12:00", "12:00-13:00",
   "13:00-14:00", "14:00-15:00", "15:00-16:00", "16:00-17:00", "17:00-18:00"]

/-- `_get_time_index`: position in `time_order`, `999` when unknown. -/
def get_time_index (ts : String) : Nat :=
  if time_order.contains ts then time_order.indexOf ts else 999

/-- `_get_time_preference` (lower = better), default 25. -/
def get_time_preference (ts : String) : Nat :=
  lookupL
    [("09:00-10:00", 1), ("10:00-11:00", 2), ("11:00-12:00", 3), ("12:00-13:00", 8),
     ("13:00-14:00", 6), ("14:00-15:00", 2), ("15:00-16:00", 4), ("16:00-17:00", 12),
     ("17:00-18:00", 20)] ts 25

/-! ### Soft-constraint penalty evaluator (lines 26-34, 1106-1331) -/

def PENALTY_CONSECUTIVE_SAME_COURSE : Nat := 1
def PENALTY_MULTIPLE_COURSE_PER_DAY : Nat := 1
def PENALTY_LATE_LECTURE : Nat := 2
def PENALTY_OVERLOADED_DAY : Nat := 2
def PENALTY_VERY_LATE_LECTURE : Nat := 3
def PENALTY_LUNCH_HOUR : Nat := 1
def PENALTY_CORE_SUBJECT_LATE : Nat := 3
def PENALTY_UNBALANCED_DAYS : Nat := 1
def PENALTY_LECTURE_LAB_SAME_DAY : Nat := 2

/-- `course_name.split('(')[0].strip()`: base course name used throughout the
penalty code (no lower-casing, unlike `_normalize_course_name`). -/
def base_course_of (name : String) : String :=
  py_strip ⟨name.data.takeWhile (fun c => c ≠ '(')⟩

/-- `self.scheduled_slots[day]` with `day in self.scheduled_slots` guard
folded in (absent day behaves as an empty per-day schedule). -/
def sched_get (sched : Sched) (day : String) : DaySched := lookupL sched day []

/-- `self.scheduled_slots[day][ts]` with the membership guard folded in. -/
def day_sessions_at (dsched : DaySched) (ts : String) : List Session := lookupL dsched ts []

/-- All sessions of a per-day schedule (`day_schedule.values()` flattened). -/
def day_all_sessions (dsched : DaySched) : List Session := dsched.flatMap (fun p => p.2)

/-- Flatten a schedule into `(day, time_slot, session)` cells in storage order. -/
def sched_cells (sched : Sched) : List (String × String × Session) :=
  sched.flatMap (fun d => d.2.flatMap (fun p => p.2.map (fun s => (d.1, p.1, s))))

/-- The committed assignments of a state. -/
def assignments (st : SolverState) : List (String × String × Session) :=
  sched_cells st.scheduled_slots

/-- `'lecture' in x.lower()`. -/
def mentions_lecture (x : String) : Bool := str_contains_sub (py_lower x) "lecture"

/-- `_check_consecutive_same_course` (lines 1153-1180): count sessions of the
same base course in the adjacent bands that are lecture-typed while the
candidate is lecture-named. -/
def check_consecutive_same_course (st : SolverState) (course_name day ts : String) : Nat :=
  let time_idx := get_time_index ts
  let base_course := base_course_of course_name
  let dsched := sched_get st.scheduled_slots day
  let count_at : String → Nat := fun slot =>
    ((day_sessions_at dsched slot).filter (fun s =>
      base_course_of s.course = base_course
        && mentions_lecture s.session_type && mentions_lecture course_name)).length
  (if time_idx > 0 then count_at (time_slots.getD (time_idx - 1) "") else 0)
    + (if time_idx < time_slots.length - 1 then count_at (time_slots.getD (time_idx + 1) "") else 0)

/-- `_check_multiple_course_per_day` (lines 1182-1194). -/
def check_multiple_course_per_day (st : SolverState) (base_course day : String) : Nat :=
  let course_count :=
    ((day_all_sessions (sched_get st.scheduled_slots day)).filter
      (fun s => base_course_of s.course = base_course)).length
  if course_count > 0 then 1 else 0

/-- `_count_day_sessions` (lines 1196-1200). -/
def count_day_sessions (st : SolverState) (day : String) : Nat :=
  ((sched_get st.scheduled_slots day).map (fun p => p.2.length)).sum

/-- `_check_lecture_lab_same_day` (lines 1202-1215). -/
def check_lecture_lab_same_day (st : SolverState) (base_course day current_course : String) : Nat :=
  let current_type := if mentions_lecture current_course then "lecture" else "lab"
  let opposite_type := if current_type = "lecture" then "lab" else "lecture"
  if (day_all_sessions (sched_get st.scheduled_slots day)).any (fun s =>
      base_course_of s.course = base_course
        && str_contains_sub (py_lower s.course) opposite_type) then 1 else 0

/-- Python `max` over a non-empty list (callers guard emptiness). -/
def list_max : List Nat → Nat
  | [] => 0
  | h :: t => t.foldl Nat.max h

/-- Python `min` over a non-empty list (callers guard emptiness). -/
def list_min : List Nat → Nat
  | [] => 0
  | h :: t => t.foldl Nat.min h

/-- `_check_daily_imbalance` (lines 1217-1224). -/
def check_daily_imbalance (st : SolverState) : Nat :=
  let day_loads := days.map (count_day_sessions st)
  if day_loads = [] then 0
  else if list_max day_loads - list_min day_loads > 3 then 1 else 0

/-- `core_subjects` literal repeated in the penalty code. -/
def core_subjects : List String :=
  ["Mathematics", "Physics", "Data Structures", "Operating Systems", "Database Systems"]

/-- The late-lecture `if/elif` chain shared verbatim by the live scorer
(lines 1123-1128) and the final report (lines 1258-1263): `+3` when the slot
is `17:00-18:00`, else `+2` when the slot compares `>= '17:00-18:00'`. -/
def late_lecture_points (ts : String) : Nat :=
  if ts = "17:00-18:00" then PENALTY_VERY_LATE_LECTURE
  else if py_str_le "17:00-18:00" ts then PENALTY_LATE_LECTURE
  else 0

/-- `calculate_soft_constraint_penalty` (lines 1106-1151): the live
per-candidate scorer. -/
def calculate_soft_constraint_penalty (st : SolverState) (course_name day ts : String) : Nat :=
  let base_course := base_course_of course_name
  let is_lecture := mentions_lecture course_name
  let p1 := check_consecutive_same_course st course_name day ts * PENALTY_CONSECUTIVE_SAME_COURSE
  let p2 := check_multiple_course_per_day st base_course day * PENALTY_MULTIPLE_COURSE_PER_DAY
  let p3 := if is_lecture then late_lecture_points ts else 0
  let p4 := if count_day_sessions st day ≥ 7 then PENALTY_OVERLOADED_DAY else 0
  let p5 := if ts = "12:00-13:00" then PENALTY_LUNCH_HOUR else 0
  let p6 := if core_subjects.contains base_course && py_str_le "16:00-17:00" ts
            then PENALTY_CORE_SUBJECT_LATE else 0
  let p7 := if check_lecture_lab_same_day st base_course day course_name ≠ 0
            then PENALTY_LECTURE_LAB_SAME_DAY else 0
  let p8 := if check_daily_imbalance st ≠ 0 then PENALTY_UNBALANCED_DAYS else 0
  p1 + p2 + p3 + p4 + p5 + p6 + p7 + p8

/-! ### Final penalty report (`calculate_final_penalty_score`, lines 1226-1331) -/

/-- The `penalty_breakdown` dictionary. -/
structure PenaltyBreakdown where
  consecutive_same_course : Nat
  multiple_course_per_day : Nat
  late_lectures : Nat
  very_late_lectures : Nat
  overloaded_days : Nat
  lunch_hour_sessions : Nat
  core_subjects_late : Nat
  lecture_lab_same_day : Nat
  daily_imbalance : Nat
deriving DecidableEq, Repr

/-- `penalty_breakdown['total_penalty']`: the sum of every other entry. -/
def PenaltyBreakdown.total_penalty (b : PenaltyBreakdown) : Nat :=
  b.consecutive_same_course + b.multiple_course_per_day + b.late_lectures
    + b.very_late_lectures + b.overloaded_days + b.lunch_hour_sessions
    + b.core_subjects_late + b.lecture_lab_same_day + b.daily_imbalance

/-- Build a Python-dict style counter from a list of keys in encounter order. -/
def counts_fold (l : List String) : List (String × Nat) :=
  l.foldl (fun m b => bumpN m b) []

/-- `calculate_final_penalty_score` (lines 1226-1331): whole-schedule report. -/
def calculate_final_penalty_score (st : SolverState) : PenaltyBreakdown :=
  let sched := st.scheduled_slots
  let cells := sched_cells sched
  let overloaded :=
    (sched.map (fun d =>
      if (d.2.map (fun p => p.2.length)).sum > 7 then PENALTY_OVERLOADED_DAY else 0)).sum
  let very_late :=
    (cells.map (fun c =>
      if mentions_lecture c.2.2.session_type && c.2.1 = "17:00-18:00"
      then PENALTY_VERY_LATE_LECTURE else 0)).sum
  let late :=
    (cells.map (fun c =>
      if mentions_lecture c.2.2.session_type && c.2.1 ≠ "17:00-18:00"
          && py_str_le "17:00-18:00" c.2.1
      then PENALTY_LATE_LECTURE else 0)).sum
  let lunch :=
    (cells.map (fun c => if c.2.1 = "12:00-13:00" then PENALTY_LUNCH_HOUR else 0)).sum
  let core_late :=
    (cells.map (fun c =>
      if core_subjects.contains (base_course_of c.2.2.course) && py_str_le "16:00-17:00" c.2.1
      then PENALTY_CORE_SUBJECT_LATE else 0)).sum
  let consecutive :=
    (sched.map (fun d =>
      let sorted_keys :=
        (d.2.map (fun p => p.1)).insertionSort (fun a b => get_time_index a ≤ get_time_index b)
      ((sorted_keys.zip sorted_keys.tail).map (fun pr =>
        ((day_sessions_at d.2 pr.1).map (fun cur =>
          ((day_sessions_at d.2 pr.2).filter (fun nxt =>
            base_course_of cur.course = base_course_of nxt.course
              && mentions_lecture cur.session_type
              && mentions_lecture nxt.session_type)).length
            * PENALTY_CONSECUTIVE_SAME_COURSE)).sum)).sum)).sum
  let multiple :=
    (sched.map (fun d =>
      ((counts_fold ((day_all_sessions d.2).map (fun s => base_course_of s.course))).map
        (fun pr => if pr.2 > 1 then (pr.2 - 1) * PENALTY_MULTIPLE_COURSE_PER_DAY else 0)).sum)).sum
  let lecture_lab :=
    (sched.map (fun d =>
      let sessions := day_all_sessions d.2
      ((counts_fold (sessions.map (fun s => base_course_of s.course))).map (fun pr =>
        if (sessions.any (fun s =>
              base_course_of s.course = pr.1 && mentions_lecture s.course))
            && (sessions.any (fun s =>
              base_course_of s.course = pr.1 && !mentions_lecture s.course))
        then PENALTY_LECTURE_LAB_SAME_DAY else 0)).sum)).sum
  let day_loads := days.map (fun day => ((sched_get sched day).map (fun p => p.2.length)).sum)
  let imbalance :=
    if day_loads = [] then 0
    else if list_max day_loads - list_min day_loads > 3 then PENALTY_UNBALANCED_DAYS else 0
  { consecutive_same_course := consecutive, multiple_course_per_day := multiple,
    late_lectures := late, very_late_lectures := very_late, overloaded_days := overloaded,
    lunch_hour_sessions := lunch, core_subjects_late := core_late,
    lecture_lab_same_day := lecture_lab, daily_imbalance := imbalance }

/-! ### Per-session scheduling steps (lines 416-576) -/

/-- Lexicographic `≤` on Python tuples of numbers, modelled as equal-length
lists. -/
def nat_lex_le : List Nat → List Nat → Bool
  | [], _ => true
  | _ :: _, [] => false
  | a :: as, b :: bs => if a = b then nat_lex_le as bs else decide (a < b)

/-- `self.default_lab_session_length`. -/
def default_lab_session_length : Nat := 2

/-- Per-course scheduling state built in `solve_timetable` (lines 1382-1397). -/
structure CourseState where
  name : String
  faculty : String
  room : String
  session_type : String
  weekly_target : Nat
  remaining : Nat
  available_slots : List (String × String)
  density : WithTop ℚ
deriving DecidableEq, Repr

/-- The score tuple of `_schedule_one_lecture_session` (lines 446-459):
`(day_load, faculty_day_load, time_preference, soft_penalty, random)`, with
the `random.uniform` tie-break replaced by the oracle `rnd`. -/
def lecture_score (rnd : String × String → Nat) (st : SolverState)
    (faculty course : String) (p : String × String) : List Nat :=
  [lookupN st.day_load p.1, lookupN st.faculty_day_load (faculty, p.1),
   get_time_preference p.2, calculate_soft_constraint_penalty st course p.1 p.2, rnd p]

/-- `_schedule_one_lecture_session` (lines 416-487): filter the candidate
slots through both predicates, pick the score-minimal survivor (Python's
stable `sort` + `valid[0]`), commit it. -/
def schedule_one_lecture_session (rnd : String × String → Nat) (st : SolverState)
    (cs : CourseState) : SolverState × Bool :=
  let valid := cs.available_slots.filter (fun p =>
    is_slot_available st p.1 p.2 cs.faculty cs.room
      && !has_student_conflict st p.1 p.2 cs.name)
  match List.insertionSort
      (fun a b => nat_lex_le (lecture_score rnd st cs.faculty cs.name a)
        (lecture_score rnd st cs.faculty cs.name b) = true) valid with
  | [] => (st, false)
  | p :: _ =>
    (commit_slot st p.1 p.2
      { course := cs.name, faculty := cs.faculty, room := cs.room,
        duration := 1, session_type := "lecture" }, true)

/-- Append to a `defaultdict(list)` group. -/
def add_group (acc : List (String × List String)) (d ts : String) : List (String × List String) :=
  match acc with
  | [] => [(d, [ts])]
  | g :: rest => if g.1 = d then (g.1, g.2 ++ [ts]) :: rest else g :: add_group rest d ts

/-- `day_slots` construction of `_schedule_one_lab_block` (lines 497-501):
group the candidate slots by day, then sort each day's times by band index. -/
def day_slots_of (avail : List (String × String)) : List (String × List String) :=
  (avail.foldl (fun acc p => add_group acc p.1 p.2) []).map
    (fun g => (g.1, List.insertionSort (fun a b => get_time_index a ≤ get_time_index b) g.2))

/-- The `times[i:i+block_hours]` windows of the candidate loop (lines
507-511); the `break` on a short window equals dropping every short window,
since window length is antitone in the start index. -/
def candidate_segments (block_hours : Nat) (times : List String) : List (List String) :=
  (List.range times.length).filterMap (fun i =>
    let seg := (times.drop i).take block_hours
    if seg.length < block_hours then none else some seg)

/-- The consecutiveness test of lines 513-516: every band index equals the
first band index plus the offset. -/
def seg_consecutive (seg : List String) : Bool :=
  match seg with
  | [] => true
  | t0 :: _ => seg.enum.all (fun p => get_time_index p.2 = get_time_index t0 + p.1)

/-- The block score tuple of lines 526-539 (base score of the block's first
slot, soft penalty, oracle tie-break). -/
def block_score (rnd : String × String → Nat) (st : SolverState)
    (faculty course day first_slot : String) : List Nat :=
  [lookupN st.day_load day, lookupN st.faculty_day_load (faculty, day),
   get_time_preference first_slot,
   calculate_soft_constraint_penalty st course day first_slot, rnd (day, first_slot)]

/-- `valid_blocks` of `_schedule_one_lab_block` (lines 503-541): all
index-contiguous windows whose every slot passes both predicates, scored. -/
def valid_blocks (rnd : String × String → Nat) (st : SolverState) (cs : CourseState)
    (block_hours : Nat) : List (String × List String × List Nat) :=
  (day_slots_of cs.available_slots).flatMap (fun g =>
    (candidate_segments block_hours g.2).filterMap (fun seg =>
      if seg_consecutive seg
          && !(seg.any (fun ts => !is_slot_available st g.1 ts cs.faculty cs.room
                || has_student_conflict st g.1 ts cs.name)) then
        some (g.1, seg, block_score rnd st cs.faculty cs.name g.1 (seg.headD ""))
      else none))

/-- Commit every slot of a chosen lab block in order (lines 552-575). -/
def commit_block (st : SolverState) (cs : CourseState) (day : String) (seg : List String)
    (block_hours : Nat) : SolverState :=
  seg.foldl (fun s ts => commit_slot s day ts
    { course := cs.name, faculty := cs.faculty, room := cs.room,
      duration := block_hours, session_type := "lab" }) st

/-- `_schedule_one_lab_block` (lines 489-576): choose the score-minimal valid
block and commit it whole, or report failure leaving the state untouched. -/
def schedule_one_lab_block (rnd : String × String → Nat) (st : SolverState)
    (cs : CourseState) : SolverState × Bool :=
  let block_hours := default_lab_session_length
  match List.insertionSort (fun a b => nat_lex_le a.2.2 b.2.2 = true)
      (valid_blocks rnd st cs block_hours) with
  | [] => (st, false)
  | b :: _ => (commit_block st cs b.1 b.2.1 block_hours, true)

/-! ### The iterative solve pipeline (`solve_timetable`, lines 1333-1494) -/

/-- Per-course input record after the ingestion/auto-format normalization of
lines 1355-1378 (name, faculty, room, normalized session type, weekly count,
already-parsed candidate slots). -/
structure CourseInfo where
  name : String
  faculty : String
  room : String
  session_type : String
  weekly_count : Nat
  available_slots : List (String × String)
deriving DecidableEq, Repr

/-- The `density` expression of line 1390:
`weekly / max(1, len(avail)) if len(avail) > 0 else float('inf')`. -/
def course_density (weekly : Nat) (avail : List (String × String)) : WithTop ℚ :=
  if avail.length > 0 then (((weekly : ℚ) / (max 1 avail.length : ℚ) : ℚ) : WithTop ℚ) else ⊤

/-- The course state dict of lines 1382-1391. -/
def build_course_state (info : CourseInfo) : CourseState :=
  { name := info.name, faculty := info.faculty, room := info.room,
    session_type := info.session_type, weekly_target := info.weekly_count,
    remaining := info.weekly_count, available_slots := info.available_slots,
    density := course_density info.weekly_count info.available_slots }

/-- Expected weekly units (lines 1392-1396): lab courses count
`weekly * block_hours` hours. -/
def expected_of (info : CourseInfo) : Nat :=
  if info.session_type = "lab" then info.weekly_count * default_lab_session_length
  else info.weekly_count

/-- The sort key order of line 1400, `key=lambda c: (-density, len(avail))`:
higher density first, ties by fewer candidate slots first. -/
def priority_le (c1 c2 : CourseState) : Prop :=
  c2.density < c1.density
    ∨ (c1.density = c2.density ∧ c1.available_slots.length ≤ c2.available_slots.length)

instance : DecidableRel priority_le := fun _ _ => by
  unfold priority_le; infer_instance

/-- `course_states.sort(...)` of line 1400 (Python's sort is stable, as is
insertion sort, so they agree on the whole list). -/
def sort_course_states (l : List CourseState) : List CourseState :=
  List.insertionSort priority_le l

/-- State reset plus course-state construction (lines 1343-1400). -/
def build_course_states (infos : List CourseInfo) : SolverState × List CourseState :=
  ({ init_state with expected_weekly := infos.map (fun i => (i.name, expected_of i)) },
   sort_course_states (infos.map build_course_state))

/-- The per-course body of each round (lines 1408-1418): skip satisfied
courses, attempt exactly one unit of progress, decrement `remaining` on
success. -/
def run_course (rnd : String × String → Nat) (st : SolverState) (cs : CourseState) :
    SolverState × CourseState × Bool :=
  if cs.remaining = 0 then (st, cs, false)
  else if cs.session_type = "lab" then
    let r := schedule_one_lab_block rnd st cs
    if r.2 then (r.1, { cs with remaining := cs.remaining - 1 }, true) else (r.1, cs, false)
  else
    let r := schedule_one_lecture_session rnd st cs
    if r.2 then (r.1, { cs with remaining := cs.remaining - 1 }, true) else (r.1, cs, false)

/-- One full round over the priority-ordered course list; `rnd` indexes the
tie-break oracle by course position, the returned flag is `progress`. -/
def run_round (rnd : Nat → String × String → Nat) :
    SolverState → List CourseState → Nat → SolverState × List CourseState × Bool
  | st, [], _ => (st, [], false)
  | st, cs :: rest, i =>
    let r1 := run_course (rnd i) st cs
    let r2 := run_round rnd r1.1 rest (i + 1)
    (r2.1, r1.2.1 :: r2.2.1, r1.2.2 || r2.2.2)

/-- `MAX_ROUNDS` of line 1403. -/
def MAX_ROUNDS : Nat := 50

/-- The `while round_idx < MAX_ROUNDS` loop of lines 1402-1420, with the
fuel equal to the round cap; `rnd` indexes the oracle by round; the returned
number counts executed rounds (including a final no-progress round). -/
def run_rounds (rnd : Nat → Nat → String × String → Nat) :
    Nat → Nat → SolverState → List CourseState → SolverState × List CourseState × Nat
  | 0, _, st, states => (st, states, 0)
  | fuel + 1, idx, st, states =>
    let r := run_round (rnd idx) st states 0
    if r.2.2 then
      let r2 := run_rounds rnd fuel (idx + 1) r.1 r.2.1
      (r2.1, r2.2.1, r2.2.2 + 1)
    else (r.1, r.2.1, 1)

/-- Deficit tagging of lines 1422-1427. -/
def mark_deficits (st : SolverState) (states : List CourseState) : SolverState :=
  states.foldl (fun s cs =>
    if cs.remaining > 0 && !(s.failure_reasons.any (fun p => p.1 = cs.name)) then
      { s with failure_reasons := s.failure_reasons ++
          [(cs.name, "WEEKLY_DEFICIT_" ++ toString (lookupN s.actual_weekly cs.name)
            ++ "/" ++ toString (lookupN s.expected_weekly cs.name))] }
    else s) st

/-- The pipeline through the main loop and deficit tagging. -/
def solve_main (rnd : Nat → Nat → String × String → Nat) (infos : List CourseInfo) :
    SolverState × List CourseState :=
  let b := build_course_states infos
  let r := run_rounds rnd MAX_ROUNDS 0 b.1 b.2
  (mark_deficits r.1 r.2.1, r.2.1)

/-- `unsatisfied` of line 1431. -/
def unsatisfied_names (states : List CourseState) : List String :=
  (states.filter (fun s => s.remaining > 0)).map (fun s => s.name)

/-- `retry_rounds` of line 1445. -/
def RETRY_ROUNDS : Nat := 10

/-- The relaxed faculty-per-day cap set at line 1441. -/
def RELAXED_FACULTY_CAP : Nat := 8

/-- The emergency relaxation block of lines 1438-1465: only when there are
deficit courses and at most 3 of them, raise the faculty-per-day cap to 8 and
rerun up to 10 rounds of the identical per-session logic. -/
def emergency_relaxation (rnd2 : Nat → Nat → String × String → Nat)
    (m : SolverState × List CourseState) : SolverState × List CourseState :=
  let u := unsatisfied_names m.2
  if u ≠ [] ∧ u.length ≤ 3 then
    let r := run_rounds rnd2 RETRY_ROUNDS 0
      { m.1 with max_faculty_sessions_per_day := RELAXED_FACULTY_CAP } m.2
    (r.1, r.2.1)
  else m

/-- The loop body of `_post_validate_weekly_counts` (lines 1489-1494). -/
def post_validate_step (s : SolverState) (pr : String × Nat) : SolverState :=
  let actual := lookupN s.actual_weekly pr.1
  if actual < pr.2 && !(s.failure_reasons.any (fun q => q.1 = pr.1)) then
    { s with failure_reasons := s.failure_reasons ++
        [(pr.1, "WEEKLY_UNDERFILLED_" ++ toString actual ++ "/" ++ toString pr.2)] }
  else if actual > pr.2 && !(s.failure_reasons.any (fun q => q.1 = pr.1)) then
    { s with failure_reasons := s.failure_reasons ++
        [(pr.1, "WEEKLY_OVERFILLED_" ++ toString actual ++ "/" ++ toString pr.2)] }
  else s

/-- `_post_validate_weekly_counts` (lines 1488-1494). -/
def post_validate_weekly_counts (st : SolverState) : SolverState :=
  st.expected_weekly.foldl post_validate_step st

/-- `solve_timetable` (lines 1333-1486): main loop, deficit tagging,
bounded relaxation, post-run weekly-count validation. -/
def solve_timetable (rnd rnd2 : Nat → Nat → String × String → Nat)
    (infos : List CourseInfo) : SolverState × List CourseState :=
  let m := emergency_relaxation rnd2 (solve_main rnd infos)
  (post_validate_weekly_counts m.1, m.2)

/-! ### Post-hoc validator (`validate_timetable`, lines 1521-1579) -/

/-- One faculty/room conflict record. -/
structure Conflict where
  day : String
  time : String
  who : String
  courses : List String
deriving DecidableEq, Repr

/-- One student (cohort) conflict record. -/
structure StudentConflict where
  day : String
  time : String
  course_pair : String × String
deriving DecidableEq, Repr

/-- The `conflicts` dictionary returned by `validate_timetable`. -/
structure ConflictReport where
  faculty_conflicts : List Conflict
  room_conflicts : List Conflict
  student_conflicts : List StudentConflict
  total_conflicts : Nat
deriving DecidableEq, Repr

/-- Python's `for i, a in enumerate(l): for b in l[i+1:]` pair enumeration. -/
def ordered_pairs {α : Type} : List α → List (α × α)
  | [] => []
  | a :: rest => rest.map (fun b => (a, b)) ++ ordered_pairs rest

/-- `validate_timetable` (lines 1521-1579): the key `'penalty_analysis'` is
skipped, slots with at most one class are skipped, duplicated faculties and
rooms within one slot are reported (Python collects them in an unordered
`set`; we fix the first-occurrence order, which has the same elements and
length), cohort conflicts come from the ordered course pairs of the slot. -/
def validate_timetable (tt : Sched) : ConflictReport :=
  let real_days := tt.filter (fun d => d.1 ≠ "penalty_analysis")
  let fac := real_days.flatMap (fun d => d.2.flatMap (fun p =>
    if p.2.length ≤ 1 then []
    else
      ((counts_fold (p.2.map (fun c => c.faculty))).filter (fun q => q.2 > 1)).map (fun q =>
        { day := d.1, time := p.1, who := q.1,
          courses := (p.2.filter (fun c => c.faculty = q.1)).map (fun c => c.course) })))
  let rooms := real_days.flatMap (fun d => d.2.flatMap (fun p =>
    if p.2.length ≤ 1 then []
    else
      ((counts_fold (p.2.map (fun c => c.room))).filter (fun q => q.2 > 1)).map (fun q =>
        { day := d.1, time := p.1, who := q.1,
          courses := (p.2.filter (fun c => c.room = q.1)).map (fun c => c.course) })))
  let studs := real_days.flatMap (fun d => d.2.flatMap (fun p =>
    if p.2.length ≤ 1 then []
    else (ordered_pairs (p.2.map (fun c => c.course))).filterMap (fun pr =>
      if courses_conflict (py_lower pr.1) (py_lower pr.2) then
        some { day := d.1, time := p.1, course_pair := (pr.1, pr.2) }
      else none)))
  { faculty_conflicts := fac, room_conflicts := rooms, student_conflicts := studs,
    total_conflicts := fac.length + rooms.length + studs.length }

/-! ### Alternate exact solver (`ortools_solver.py`) -/

/-- Course record prepared by `create_variables` (lines 87-107): duration
plays the weekly-target role, availability is a set of `(day, time)` index
pairs. -/
structure OCourse where
  name : String
  faculty : String
  room : String
  duration : Nat
  available_slots : List (Nat × Nat)
deriving DecidableEq, Repr

/-- `len(self.days)` in the exact solver. -/
def or_num_days : Nat := 5

/-- `len(self.time_slots)` in the exact solver (8-band grid). -/
def or_num_time_slots : Nat := 8

/-- Fallback record for out-of-range indexing (never reached in the stated
theorems). -/
def or_default_course : OCourse :=
  { name := "", faculty := "", room := "", duration := 0, available_slots := [] }

/-- `self.faculty_list` accumulation of lines 104-105. -/
def or_faculty_list (courses : List OCourse) : List String :=
  courses.foldl (fun acc c => if acc.contains c.faculty then acc else acc ++ [c.faculty]) []

/-- `self.room_list` accumulation of lines 106-107. -/
def or_room_list (courses : List OCourse) : List String :=
  courses.foldl (fun acc c => if acc.contains c.room then acc else acc ++ [c.room]) []

/-- `sum(scheduled_slots)` for one course over the whole grid; an assignment
of the boolean decision variables is a function `x c d t`. -/
def count_scheduled (x : Nat → Nat → Nat → Bool) (c : Nat) : Nat :=
  ((List.range or_num_days).map (fun d =>
    ((List.range or_num_time_slots).filter (fun t => x c d t)).length)).sum

/-- The count appearing in the faculty constraint of lines 140-149 (number of
this faculty's courses placed at `(d, t)`). -/
def or_faculty_usage (courses : List OCourse) (x : Nat → Nat → Nat → Bool)
    (f : String) (d t : Nat) : Nat :=
  ((List.range courses.length).filter (fun c =>
    (courses.getD c or_default_course).faculty = f && x c d t)).length

/-- The count appearing in the room constraint of lines 151-160. -/
def or_room_usage (courses : List OCourse) (x : Nat → Nat → Nat → Bool)
    (r : String) (d t : Nat) : Nat :=
  ((List.range courses.length).filter (fun c =>
    (courses.getD c or_default_course).room = r && x c d t)).length

/-- `add_constraints` (lines 117-160): an assignment of the decision
variables satisfies the generated model exactly when (1) every course is
scheduled exactly `duration` times, (2) never outside its own availability,
(3) every listed faculty and (4) every listed room is used at most once per
`(day, time)` cell. -/
def satisfies_model (courses : List OCourse) (x : Nat → Nat → Nat → Bool) : Bool :=
  ((List.range courses.length).all (fun c =>
    count_scheduled x c = (courses.getD c or_default_course).duration))
  && ((List.range courses.length).all (fun c =>
      (List.range or_num_days).all (fun d => (List.range or_num_time_slots).all (fun t =>
        (courses.getD c or_default_course).available_slots.contains (d, t) || !x c d t))))
  && ((or_faculty_list courses).all (fun f =>
      (List.range or_num_days).all (fun d => (List.range or_num_time_slots).all (fun t =>
        or_faculty_usage courses x f d t ≤ 1))))
  && ((or_room_list courses).all (fun r =>
      (List.range or_num_days).all (fun d => (List.range or_num_time_slots).all (fun t =>
        or_room_usage courses x r d t ≤ 1))))

/-- The `(day, time)` cells at which `extract_solution` (lines 206-239)
emits course `c`. -/
def scheduled_cells (x : Nat → Nat → Nat → Bool) (c : Nat) : List (Nat × Nat) :=
  (List.range or_num_days).flatMap (fun d =>
    (List.range or_num_time_slots).filterMap (fun t => if x c d t then some (d, t) else none))

/-- The `timetable[day][time_slot]` list built by `extract_solution` for one
cell: `(course, faculty, room)` entries in course order. -/
def extract_cell (courses : List OCourse) (x : Nat → Nat → Nat → Bool) (d t : Nat) :
    List (String × String × String) :=
  (List.range courses.length).filterMap (fun c =>
    if x c d t then
      some ((courses.getD c or_default_course).name,
            (courses.getD c or_default_course).faculty,
            (courses.getD c or_default_course).room)
    else none)

/-! ## Theorems -/

/-! ### C6: legacy compact availability tokens -/

/-- Claim C6 (counterexample): the resolver does NOT map `"Mon2"` to the
single SlotKey `(Monday, 10:00-11:00)`; `"Mon2"` and `"monday 10am"` resolve
to different SlotKey sets. -/
theorem C6_counterexample :
    parse_availability_slots "Mon2" ≠ [("Monday", "10:00-11:00")]
      ∧ parse_availability_slots "Mon2" ≠ parse_availability_slots "monday 10am" := by
  decide

/-- Claim C6 (amended): the resolver ignores the digit of a legacy compact
token: `"Mon2"` hits the abbreviated-day branch and expands to all nine
Monday SlotKeys (the legacy-index table `slot_mapping` is never consulted by
`parse_availability_slots`), while `"monday 10am"` resolves to the single
SlotKey `(Monday, 10:00-11:00)`; thus `"Mon2"` resolves to a strict superset
containing that SlotKey, not to the identical set. -/
theorem C6_legacy_token_expands_whole_day :
    parse_availability_slots "Mon2" = all_time_slots.map (fun ts => ("Monday", ts))
      ∧ parse_availability_slots "monday 10am" = [("Monday", "10:00-11:00")]
      ∧ ("Monday", "10:00-11:00") ∈ parse_availability_slots "Mon2"
      ∧ lookup_str slot_mapping "2" = some "10:00-11:00" := by
  decide

/-! ### C9: symmetry and base-name reflexivity of `_courses_conflict` -/

/-- Claim C9: `_courses_conflict` is symmetric, and two names normalizing to
the same base (after stripping a parenthesized component qualifier) never
conflict, so a course's lecture and lab are not a student conflict. -/
theorem C9_conflict_symm_same_base :
    (∀ a b : String, courses_conflict a b = courses_conflict b a)
      ∧ (∀ a b : String, normalize_course_name a = normalize_course_name b →
          courses_conflict a b = false) := by
  constructor
  · intro a b
    unfold courses_conflict
    by_cases h : normalize_course_name a = normalize_course_name b
    · simp [h]
    · have h' : ¬ normalize_course_name b = normalize_course_name a := fun e => h e.symm
      simp only [if_neg h, if_neg h']
      have : (fun g : String × List String =>
          g.2.contains (normalize_course_name a) && g.2.contains (normalize_course_name b))
          = (fun g : String × List String =>
          g.2.contains (normalize_course_name b) && g.2.contains (normalize_course_name a)) :=
        funext fun g => Bool.and_comm _ _
      rw [this]
  · intro a b h
    simp [courses_conflict, h]

/-- Witness for C9: the lecture and the lab of `data structures` share a base
name and are reported conflict-free. -/
theorem C9_witness :
    normalize_course_name "data structures (lecture)"
        = normalize_course_name "data structures (lab)"
      ∧ courses_conflict "data structures (lecture)" "data structures (lab)" = false :=
  ⟨by decide, C9_conflict_symm_same_base.2 "data structures (lecture)"
    "data structures (lab)" (by decide)⟩

/-! ### C7: late-lecture penalties -/

/-- A schedule holding one second-to-last-slot lecture. -/
def sched_one_lecture_16 : Sched :=
  [("Monday", [("16:00-17:00",
    [{ course := "english (lecture)", faculty := "F1", room := "R1",
       duration := 1, session_type := "lecture" }])])]

/-- A solver state holding one second-to-last-slot lecture. -/
def state_one_lecture_16 : SolverState :=
  { init_state with scheduled_slots := sched_one_lecture_16 }

/-- A schedule holding one last-slot lecture. -/
def sched_one_lecture_17 : Sched :=
  [("Monday", [("17:00-18:00",
    [{ course := "english (lecture)", faculty := "F1", room := "R1",
       duration := 1, session_type := "lecture" }])])]

/-- A solver state holding one last-slot lecture. -/
def state_one_lecture_17 : SolverState :=
  { init_state with scheduled_slots := sched_one_lecture_17 }

/-- Claim C7 (counterexample): a lecture in the second-to-last slot
(16:00-17:00) does NOT contribute +2: the live scorer gives such a placement
total penalty 0 in an otherwise empty schedule, and the final report's
late-lecture entry (and total) is 0 for a schedule holding exactly one such
lecture. -/
theorem C7_counterexample :
    calculate_soft_constraint_penalty init_state "english (lecture)" "Monday" "16:00-17:00" = 0
      ∧ (calculate_final_penalty_score state_one_lecture_16).late_lectures = 0
      ∧ (calculate_final_penalty_score state_one_lecture_16).total_penalty = 0 := by
  decide

/-- Claim C7 (amended): a lecture in the day's last slot (17:00-18:00)
contributes +3 in both the live scorer and the final report, but the +2
late-lecture branch fires only for slots comparing `>= '17:00-18:00'` and is
therefore dead on the canonical grid: every other canonical slot — the
second-to-last included — contributes 0 late-lecture points, and the final
report's late-lecture entry is 0 for every schedule over canonical slots. -/
theorem C7_late_slot_penalties :
    (∀ ts ∈ time_slots, late_lecture_points ts
        = if ts = "17:00-18:00" then PENALTY_VERY_LATE_LECTURE else 0)
      ∧ calculate_soft_constraint_penalty init_state "english (lecture)" "Monday" "17:00-18:00" = 3
      ∧ (∀ st : SolverState, (∀ c ∈ sched_cells st.scheduled_slots, c.2.1 ∈ time_slots) →
          (calculate_final_penalty_score st).late_lectures = 0)
      ∧ (calculate_final_penalty_score state_one_lecture_17).very_late_lectures = 3 := by
  refine ⟨by decide, by decide, ?_, by decide⟩
  intro st h
  have key : ∀ ts ∈ time_slots, ts ≠ "17:00-18:00" → py_str_le "17:00-18:00" ts = false := by
    decide
  unfold calculate_final_penalty_score
  apply List.sum_eq_zero
  intro x hx
  rw [List.mem_map] at hx
  obtain ⟨c, hc, rfl⟩ := hx
  have hts := h c hc
  by_cases h17 : c.2.1 = "17:00-18:00"
  · simp [h17]
  · simp [h17, key c.2.1 hts h17]

/-- Witness for C7: the second-to-last slot is canonical, gets 0
late-lecture points, and the one-lecture-at-16:00 schedule reports 0. -/
theorem C7_witness :
    ("16:00-17:00" ∈ time_slots)
      ∧ late_lecture_points "16:00-17:00"
        = (if ("16:00-17:00" : String) = "17:00-18:00" then PENALTY_VERY_LATE_LECTURE else 0)
      ∧ (calculate_final_penalty_score state_one_lecture_16).late_lectures = 0 :=
  ⟨by decide, C7_late_slot_penalties.1 "16:00-17:00" (by decide),
   C7_late_slot_penalties.2.2.1 state_one_lecture_16 (by decide)⟩

/-! ### C10: validator report structure -/

/-- Slots with at most one class yield no conflict entries. -/
lemma validate_nil_of_single {tt : Sched} (h : ∀ d ∈ tt, ∀ p ∈ d.2, p.2.length ≤ 1) :
    (validate_timetable tt).faculty_conflicts = []
      ∧ (validate_timetable tt).room_conflicts = []
      ∧ (validate_timetable tt).student_conflicts = [] := by
  have h' : ∀ d ∈ tt.filter (fun d => d.1 ≠ "penalty_analysis"), ∀ p ∈ d.2, p.2.length ≤ 1 :=
    fun d hd => h d (List.mem_of_mem_filter hd)
  unfold validate_timetable
  refine ⟨?_, ?_, ?_⟩ <;>
  · apply List.flatMap_eq_nil_iff.mpr
    intro d hd
    apply List.flatMap_eq_nil_iff.mpr
    intro p hp
    rw [if_pos (h' d hd p hp)]

/-- Claim C10: the report's `total_conflicts` is the sum of the three conflict
list lengths; slots with at most one class contribute no conflicts; the
embedded `'penalty_analysis'` key is skipped entirely. -/
theorem C10_validator_totals :
    (∀ tt : Sched, (validate_timetable tt).total_conflicts =
        (validate_timetable tt).faculty_conflicts.length
          + (validate_timetable tt).room_conflicts.length
          + (validate_timetable tt).student_conflicts.length)
      ∧ (∀ tt : Sched, (∀ d ∈ tt, ∀ p ∈ d.2, p.2.length ≤ 1) →
          (validate_timetable tt).total_conflicts = 0)
      ∧ (∀ junk : DaySched, ∀ tt : Sched,
          validate_timetable (("penalty_analysis", junk) :: tt) = validate_timetable tt) := by
  refine ⟨fun tt => rfl, ?_, ?_⟩
  · intro tt h
    obtain ⟨h1, h2, h3⟩ := validate_nil_of_single h
    have : (validate_timetable tt).total_conflicts =
        (validate_timetable tt).faculty_conflicts.length
          + (validate_timetable tt).room_conflicts.length
          + (validate_timetable tt).student_conflicts.length := rfl
    rw [this, h1, h2, h3]
    rfl
  · intro junk tt
    unfold validate_timetable
    simp

/-- Witness for C10: the one-lecture schedule validates with zero conflicts. -/
theorem C10_witness :
    (validate_timetable sched_one_lecture_16).total_conflicts = 0 :=
  C10_validator_totals.2.1 sched_one_lecture_16 (by decide)

/-! ### C5: priority ordering by density -/

instance : IsTrans CourseState priority_le := ⟨by
  intro a b c hab hbc
  rcases hab with h1 | ⟨h1, h2⟩ <;> rcases hbc with h3 | ⟨h3, h4⟩
  · exact Or.inl (lt_trans h3 h1)
  · exact Or.inl (h3 ▸ h1)
  · exact Or.inl (h3.trans_eq h1.symm)
  · exact Or.inr ⟨h1.trans h3, h2.trans h4⟩⟩

instance : IsTotal CourseState priority_le := ⟨by
  intro a b
  rcases lt_trichotomy a.density b.density with h | h | h
  · exact Or.inr (Or.inl h)
  · rcases Nat.le_total a.available_slots.length b.available_slots.length with hl | hl
    · exact Or.inl (Or.inr ⟨h, hl⟩)
    · exact Or.inr (Or.inr ⟨h.symm, hl⟩)
  · exact Or.inl (Or.inl h)⟩

/-- Claim C5 (counterexample): the density of a course with an empty
candidate-slot set is `float('inf')`, not its weekly target: for
weeklyTarget 1 the code's density is `⊤`, which differs from 1 and dominates
every finite density (so empty-candidate courses sort first). -/
theorem C5_counterexample :
    course_density 1 [] = (⊤ : WithTop ℚ)
      ∧ course_density 1 [] ≠ (((1 : Nat) : ℚ) : WithTop ℚ)
      ∧ (((5 : ℚ) : WithTop ℚ)) < course_density 1 [] := by
  refine ⟨rfl, ?_, ?_⟩
  · rw [show course_density 1 [] = ⊤ from rfl]
    exact (WithTop.coe_ne_top).symm
  · rw [show course_density 1 [] = ⊤ from rfl]
    exact WithTop.coe_lt_top 5

/-- Claim C5 (amended): courses are attempted in descending-density order
with ties broken by ascending candidate count, where density is
`weeklyTarget / max(1, |candidateSlots|)` for a non-empty candidate set but
`+∞` (`float('inf')`) for an empty one. -/
theorem C5_priority_ordering :
    (∀ (weekly : Nat) (avail : List (String × String)), avail ≠ [] →
        course_density weekly avail
          = (((weekly : ℚ) / (max 1 avail.length : ℚ) : ℚ) : WithTop ℚ))
      ∧ (∀ weekly : Nat, course_density weekly [] = ⊤)
      ∧ (∀ l : List CourseState, (sort_course_states l).Sorted priority_le)
      ∧ (∀ infos : List CourseInfo, ((build_course_states infos).2).Sorted priority_le) := by
  refine ⟨?_, fun _ => rfl, ?_, ?_⟩
  · intro weekly avail h
    unfold course_density
    rw [if_pos (List.length_pos.mpr h)]
  · intro l
    exact List.sorted_insertionSort priority_le l
  · intro infos
    exact List.sorted_insertionSort priority_le _

/-- Witness slot list for C5. -/
def availW : List (String × String) := [("Monday", "09:00-10:00")]

/-- Witness for C5: a one-slot course's density is its target over
`max(1, 1)`. -/
theorem C5_witness :
    availW ≠ []
      ∧ course_density 3 availW
        = ((((3 : Nat) : ℚ) / (max 1 availW.length : ℚ) : ℚ) : WithTop ℚ) :=
  ⟨by decide, C5_priority_ordering.1 3 availW (by decide)⟩

/-! ### C8: the exact solver's model -/

/-- Length of a guarded `filterMap` equals the length of the corresponding
`filter`. -/
lemma length_filterMap_guard {α β : Type} (p : α → Bool) (g : α → β) (l : List α) :
    (l.filterMap (fun a => if p a then some (g a) else none)).length
      = (l.filter p).length := by
  induction l with
  | nil => rfl
  | cons a t ih =>
    by_cases h : p a
    · simp [List.filterMap_cons, List.filter_cons, h, ih]
    · simp [List.filterMap_cons, List.filter_cons, h, ih]

/-- Two members of a list of length at most one coincide. -/
lemma eq_of_mem_of_length_le_one {α : Type} {l : List α} (h : l.length ≤ 1)
    {a b : α} (ha : a ∈ l) (hb : b ∈ l) : a = b := by
  match l, h, ha, hb with
  | [x], _, ha, hb =>
    rw [List.mem_singleton.mp ha, List.mem_singleton.mp hb]
  | x :: y :: t, h, _, _ => simp at h

/-- Elements already accumulated persist through the faculty/room list fold. -/
lemma mem_fold_dedup_of_mem {γ : Type} (key : γ → String) :
    ∀ (l : List γ) (acc : List String) (s : String), s ∈ acc →
      s ∈ l.foldl (fun acc c => if acc.contains (key c) then acc else acc ++ [key c]) acc
  | [], _, _, h => h
  | c :: t, acc, s, h => by
    rw [List.foldl_cons]
    apply mem_fold_dedup_of_mem key t
    by_cases hc : acc.contains (key c) = true
    · rw [if_pos hc]
      exact h
    · rw [if_neg hc]
      exact List.mem_append_left _ h

/-- Every processed element's key lands in the fold's result. -/
lemma key_mem_fold_dedup {γ : Type} (key : γ → String) :
    ∀ (l : List γ) (acc : List String) (c : γ), c ∈ l →
      key c ∈ l.foldl (fun acc c => if acc.contains (key c) then acc else acc ++ [key c]) acc
  | [], _, _, h => absurd h (List.not_mem_nil _)
  | a :: t, acc, c, h => by
    rw [List.foldl_cons]
    rcases List.mem_cons.mp h with rfl | ht
    · apply mem_fold_dedup_of_mem key t
      by_cases hc : acc.contains (key c) = true
      · rw [if_pos hc]
        obtain ⟨a', ha', hbeq⟩ := List.contains_iff_exists_mem_beq.mp hc
        rwa [show key c = a' from eq_of_beq hbeq]
      · rw [if_neg hc]
        exact List.mem_append_right _ (List.mem_singleton_self _)
    · exact key_mem_fold_dedup key t _ c ht

/-- A course's faculty always appears in `self.faculty_list`. -/
lemma faculty_mem_faculty_list (courses : List OCourse) (c : OCourse) (hc : c ∈ courses) :
    c.faculty ∈ or_faculty_list courses :=
  key_mem_fold_dedup (fun c => c.faculty) courses [] c hc

/-- A course's room always appears in `self.room_list`. -/
lemma room_mem_room_list (courses : List OCourse) (c : OCourse) (hc : c ∈ courses) :
    c.room ∈ or_room_list courses :=
  key_mem_fold_dedup (fun c => c.room) courses [] c hc

/-- Unpack `satisfies_model` into its four constraint families. -/
lemma satisfies_model_spec {courses : List OCourse} {x : Nat → Nat → Nat → Bool}
    (hx : satisfies_model courses x = true) :
    (∀ c < courses.length, count_scheduled x c = (courses.getD c or_default_course).duration)
      ∧ (∀ c < courses.length, ∀ d < or_num_days, ∀ t < or_num_time_slots,
          x c d t = true → (d, t) ∈ (courses.getD c or_default_course).available_slots)
      ∧ (∀ f ∈ or_faculty_list courses, ∀ d < or_num_days, ∀ t < or_num_time_slots,
          or_faculty_usage courses x f d t ≤ 1)
      ∧ (∀ r ∈ or_room_list courses, ∀ d < or_num_days, ∀ t < or_num_time_slots,
          or_room_usage courses x r d t ≤ 1) := by
  unfold satisfies_model at hx
  simp only [Bool.and_eq_true, List.all_eq_true, List.mem_range] at hx
  obtain ⟨⟨⟨h1, h2⟩, h3⟩, h4⟩ := hx
  refine ⟨?_, ?_, ?_, ?_⟩
  · intro c hc
    simpa using h1 c hc
  · intro c hc d hd t ht hxc
    have hdt := h2 c hc d hd t ht
    rw [hxc] at hdt
    simp only [Bool.not_true, Bool.or_false] at hdt
    obtain ⟨p, hp, hbeq⟩ := List.contains_iff_exists_mem_beq.mp hdt
    rwa [show (d, t) = p from eq_of_beq hbeq]
  · intro f hf d hd t ht
    simpa using h3 f hf d hd t ht
  · intro r hr d hd t ht
    simpa using h4 r hr d hd t ht

/-- Claim C8: any assignment satisfying the exact solver's model schedules
each course exactly its weekly target (`duration`) number of times, only
within its own candidate slots, and the extracted timetable never books one
faculty or one room twice in the same `(day, time)` cell. -/
theorem C8_exact_model_properties :
    ∀ (courses : List OCourse) (x : Nat → Nat → Nat → Bool),
      satisfies_model courses x = true →
      (∀ c < courses.length,
          (scheduled_cells x c).length = (courses.getD c or_default_course).duration)
        ∧ (∀ c < courses.length, ∀ p ∈ scheduled_cells x c,
            p ∈ (courses.getD c or_default_course).available_slots)
        ∧ (∀ d < or_num_days, ∀ t < or_num_time_slots,
            (extract_cell courses x d t).Pairwise
              (fun e1 e2 => e1.2.1 ≠ e2.2.1 ∧ e1.2.2 ≠ e2.2.2)) := by
  intro courses x hx
  obtain ⟨h1, h2, h3, h4⟩ := satisfies_model_spec hx
  refine ⟨?_, ?_, ?_⟩
  · intro c hc
    unfold scheduled_cells
    rw [List.length_flatMap]
    have hrw : ((List.range or_num_days).map
        (List.length ∘ fun d => (List.range or_num_time_slots).filterMap
          (fun t => if x c d t then some (d, t) else none)))
        = ((List.range or_num_days).map
          (fun d => ((List.range or_num_time_slots).filter (fun t => x c d t)).length)) := by
      apply List.map_congr_left
      intro d _
      exact length_filterMap_guard (fun t => x c d t) (fun t => (d, t)) _
    rw [hrw]
    exact h1 c hc
  · intro c hc p hp
    unfold scheduled_cells at hp
    rw [List.mem_flatMap] at hp
    obtain ⟨d, hd, hp⟩ := hp
    rw [List.mem_filterMap] at hp
    obtain ⟨t, ht, hpt⟩ := hp
    by_cases hxc : x c d t
    · rw [if_pos hxc] at hpt
      cases hpt
      exact h2 c hc d (List.mem_range.mp hd) t (List.mem_range.mp ht) hxc
    · rw [if_neg hxc] at hpt
      cases hpt
  · intro d hd t ht
    unfold extract_cell
    rw [List.pairwise_filterMap, List.pairwise_iff_getElem]
    intro i j hi hj hij
    simp only [List.length_range] at hi hj
    simp only [List.getElem_range]
    intro e1 he1 e2 he2
    rw [Option.mem_def] at he1 he2
    by_cases hx1 : x i d t
    · by_cases hx2 : x j d t
      · rw [if_pos hx1, Option.some_inj] at he1
        rw [if_pos hx2, Option.some_inj] at he2
        subst he1
        subst he2
        have hci : courses.getD i or_default_course ∈ courses := by
          rw [List.getD_eq_getElem?_getD, List.getElem?_eq_getElem hi]
          exact List.getElem_mem _
        constructor
        · intro hfac
          have hfac' : (courses.getD i or_default_course).faculty
              = (courses.getD j or_default_course).faculty := hfac
          have husage := h3 (courses.getD i or_default_course).faculty
            (faculty_mem_faculty_list courses _ hci) d hd t ht
          unfold or_faculty_usage at husage
          have hi_mem : i ∈ (List.range courses.length).filter (fun c =>
              ((courses.getD c or_default_course).faculty
                = (courses.getD i or_default_course).faculty) && x c d t) :=
            List.mem_filter.mpr ⟨List.mem_range.mpr hi, by simp [hx1]⟩
          have hj_mem : j ∈ (List.range courses.length).filter (fun c =>
              ((courses.getD c or_default_course).faculty
                = (courses.getD i or_default_course).faculty) && x c d t) :=
            List.mem_filter.mpr ⟨List.mem_range.mpr hj, by
              simp only [hx2, Bool.and_true, decide_eq_true_eq]
              exact hfac'.symm⟩
          have := eq_of_mem_of_length_le_one husage hi_mem hj_mem
          omega
        · intro hroom
          have hroom' : (courses.getD i or_default_course).room
              = (courses.getD j or_default_course).room := hroom
          have husage := h4 (courses.getD i or_default_course).room
            (room_mem_room_list courses _ hci) d hd t ht
          unfold or_room_usage at husage
          have hi_mem : i ∈ (List.range courses.length).filter (fun c =>
              ((courses.getD c or_default_course).room
                = (courses.getD i or_default_course).room) && x c d t) :=
            List.mem_filter.mpr ⟨List.mem_range.mpr hi, by simp [hx1]⟩
          have hj_mem : j ∈ (List.range courses.length).filter (fun c =>
              ((courses.getD c or_default_course).room
                = (courses.getD i or_default_course).room) && x c d t) :=
            List.mem_filter.mpr ⟨List.mem_range.mpr hj, by
              simp only [hx2, Bool.and_true, decide_eq_true_eq]
              exact hroom'.symm⟩
          have := eq_of_mem_of_length_le_one husage hi_mem hj_mem
          omega
      · rw [if_neg hx2] at he2
        cases he2
    · rw [if_neg hx1] at he1
      cases he1

/-- Witness course list for C8: one course, one candidate cell. -/
def or_courses_w : List OCourse :=
  [{ name := "algo", faculty := "f1", room := "r1", duration := 1, available_slots := [(0, 0)] }]

/-- Witness assignment for C8: schedule the course at its sole cell. -/
def or_x_w : Nat → Nat → Nat → Bool := fun c d t => c == 0 && d == 0 && t == 0

/-- Witness for C8: the one-course assignment satisfies the model and is
scheduled exactly its `duration` number of times. -/
theorem C8_witness :
    satisfies_model or_courses_w or_x_w = true
      ∧ (scheduled_cells or_x_w 0).length = (or_courses_w.getD 0 or_default_course).duration :=
  ⟨by decide, (C8_exact_model_properties or_courses_w or_x_w (by decide)).1 0 (by decide)⟩

/-! ### C3: lab blocks are contiguous, checked, and committed atomically -/

/-- The block actually selected by `_schedule_one_lab_block` (the head of the
score-sorted `valid_blocks`), exposed for specification. -/
def chosen_lab_block (rnd : String × String → Nat) (st : SolverState) (cs : CourseState) :
    Option (String × List String × List Nat) :=
  (List.insertionSort (fun a b => nat_lex_le a.2.2 b.2.2 = true)
    (valid_blocks rnd st cs default_lab_session_length)).head?

/-- One `add_group` step keeps every grouped pair coming from the original
slot list. -/
lemma add_group_mem_prop {P : String → String → Prop} :
    ∀ (acc : List (String × List String)) (d ts : String),
      (∀ g ∈ acc, ∀ t ∈ g.2, P g.1 t) → P d ts →
      ∀ g ∈ add_group acc d ts, ∀ t ∈ g.2, P g.1 t
  | [], d, ts, _, hp, g, hg, t, ht => by
    simp only [add_group] at hg
    rw [List.mem_singleton.mp hg] at ht ⊢
    rw [List.mem_singleton.mp ht]
    exact hp
  | a :: rest, d, ts, hacc, hp, g, hg, t, ht => by
    simp only [add_group] at hg
    by_cases hd : a.1 = d
    · rw [if_pos hd] at hg
      rcases List.mem_cons.mp hg with rfl | hgr
      · rcases List.mem_append.mp ht with hta | hts
        · exact hacc a (List.mem_cons_self _ _) t hta
        · rw [List.mem_singleton.mp hts]
          exact hd ▸ hp
      · exact hacc g (List.mem_cons_of_mem _ hgr) t ht
    · rw [if_neg hd] at hg
      rcases List.mem_cons.mp hg with rfl | hgr
      · exact hacc g (List.mem_cons_self _ _) t ht
      · exact add_group_mem_prop rest d ts
          (fun q hq => hacc q (List.mem_cons_of_mem _ hq)) hp g hgr t ht

/-- Every pair grouped by the `day_slots` fold satisfies any property that
all incoming pairs satisfy. -/
lemma fold_add_group_prop {P : String → String → Prop} :
    ∀ (l : List (String × String)) (acc : List (String × List String)),
      (∀ g ∈ acc, ∀ t ∈ g.2, P g.1 t) → (∀ p ∈ l, P p.1 p.2) →
      ∀ g ∈ l.foldl (fun acc p => add_group acc p.1 p.2) acc, ∀ t ∈ g.2, P g.1 t
  | [], _, hacc, _, g, hg, t, ht => hacc g hg t ht
  | p :: rest, acc, hacc, hl, g, hg, t, ht => by
    rw [List.foldl_cons] at hg
    exact fold_add_group_prop rest _
      (add_group_mem_prop acc p.1 p.2 hacc (hl p (List.mem_cons_self _ _)))
      (fun q hq => hl q (List.mem_cons_of_mem _ hq)) g hg t ht

/-- Every time of every `day_slots` group is one of the course's candidate
slots for that day. -/
lemma day_slots_of_mem {avail : List (String × String)} {g : String × List String}
    (hg : g ∈ day_slots_of avail) : ∀ ts ∈ g.2, (g.1, ts) ∈ avail := by
  unfold day_slots_of at hg
  rw [List.mem_map] at hg
  obtain ⟨g0, hg0, rfl⟩ := hg
  intro ts hts
  rw [List.mem_insertionSort] at hts
  exact fold_add_group_prop (P := fun d t => (d, t) ∈ avail) avail []
    (by intro g hg; cases hg) (fun p hp => hp) g0 hg0 ts hts

/-- Windows produced by `candidate_segments` have exactly the block length. -/
lemma candidate_segments_length {bh : Nat} {times : List String} {seg : List String}
    (hseg : seg ∈ candidate_segments bh times) : seg.length = bh := by
  unfold candidate_segments at hseg
  rw [List.mem_filterMap] at hseg
  obtain ⟨i, _, hif⟩ := hseg
  by_cases hlen : ((times.drop i).take bh).length < bh
  · rw [if_pos hlen] at hif
    cases hif
  · rw [if_neg hlen] at hif
    rw [Option.some_inj] at hif
    subst hif
    have := List.length_take bh (times.drop i)
    omega

/-- Windows produced by `candidate_segments` draw from the day's times. -/
lemma candidate_segments_subset {bh : Nat} {times : List String} {seg : List String}
    (hseg : seg ∈ candidate_segments bh times) : seg ⊆ times := by
  unfold candidate_segments at hseg
  rw [List.mem_filterMap] at hseg
  obtain ⟨i, _, hif⟩ := hseg
  by_cases hlen : ((times.drop i).take bh).length < bh
  · rw [if_pos hlen] at hif
    cases hif
  · rw [if_neg hlen] at hif
    rw [Option.some_inj] at hif
    subst hif
    exact ((List.take_sublist _ _).trans (List.drop_sublist _ _)).subset

/-- Inversion of membership in `valid_blocks`: the chosen day/segment pair
has block length, is index-contiguous, stays inside the candidate set, and
every slot passed both predicates against the pre-commit state. -/
lemma valid_blocks_mem {rnd : String × String → Nat} {st : SolverState} {cs : CourseState}
    {bh : Nat} {b : String × List String × List Nat}
    (hb : b ∈ valid_blocks rnd st cs bh) :
    b.2.1.length = bh
      ∧ seg_consecutive b.2.1 = true
      ∧ (∀ ts ∈ b.2.1, (b.1, ts) ∈ cs.available_slots)
      ∧ (∀ ts ∈ b.2.1, is_slot_available st b.1 ts cs.faculty cs.room = true)
      ∧ (∀ ts ∈ b.2.1, has_student_conflict st b.1 ts cs.name = false) := by
  unfold valid_blocks at hb
  rw [List.mem_flatMap] at hb
  obtain ⟨g, hg, hb⟩ := hb
  rw [List.mem_filterMap] at hb
  obtain ⟨seg, hseg, hif⟩ := hb
  by_cases hcond : (seg_consecutive seg
      && !(seg.any (fun ts => !is_slot_available st g.1 ts cs.faculty cs.room
            || has_student_conflict st g.1 ts cs.name))) = true
  · rw [if_pos hcond] at hif
    rw [Option.some_inj] at hif
    subst hif
    rw [Bool.and_eq_true] at hcond
    obtain ⟨hcons, hchecks⟩ := hcond
    rw [Bool.not_eq_true', List.any_eq_false] at hchecks
    refine ⟨candidate_segments_length hseg, hcons, ?_, ?_, ?_⟩
    · intro ts hts
      exact day_slots_of_mem hg ts (candidate_segments_subset hseg hts)
    · intro ts hts
      have hfalse : (!is_slot_available st g.1 ts cs.faculty cs.room
          || has_student_conflict st g.1 ts cs.name) = false :=
        Bool.eq_false_iff.mpr (hchecks ts hts)
      have h1 := (Bool.or_eq_false_iff.mp hfalse).1
      rwa [Bool.not_eq_eq_eq_not, Bool.not_false] at h1
    · intro ts hts
      have hfalse : (!is_slot_available st g.1 ts cs.faculty cs.room
          || has_student_conflict st g.1 ts cs.name) = false :=
        Bool.eq_false_iff.mpr (hchecks ts hts)
      exact (Bool.or_eq_false_iff.mp hfalse).2
  · rw [if_neg hcond] at hif
    cases hif

/-- Claim C3: every committed lab block occupies exactly
`default_lab_session_length = 2` index-contiguous slots of a single day,
each of which individually passed both the availability and the
cohort-conflict predicate against the pre-commit state, and the whole block
is committed in one step — on failure the state is returned untouched. -/
theorem C3_lab_block_atomic :
    default_lab_session_length = 2
      ∧ (∀ rnd st cs, chosen_lab_block rnd st cs = none →
          schedule_one_lab_block rnd st cs = (st, false))
      ∧ (∀ rnd st cs b, chosen_lab_block rnd st cs = some b →
          b.2.1.length = default_lab_session_length
            ∧ seg_consecutive b.2.1 = true
            ∧ (∀ ts ∈ b.2.1, (b.1, ts) ∈ cs.available_slots)
            ∧ (∀ ts ∈ b.2.1, is_slot_available st b.1 ts cs.faculty cs.room = true)
            ∧ (∀ ts ∈ b.2.1, has_student_conflict st b.1 ts cs.name = false)
            ∧ schedule_one_lab_block rnd st cs
              = (commit_block st cs b.1 b.2.1 default_lab_session_length, true)) := by
  refine ⟨rfl, ?_, ?_⟩
  · intro rnd st cs hnone
    unfold chosen_lab_block at hnone
    rw [List.head?_eq_none_iff] at hnone
    simp only [schedule_one_lab_block]
    rw [hnone]
  · intro rnd st cs b hsome
    unfold chosen_lab_block at hsome
    cases h : List.insertionSort (fun a b => nat_lex_le a.2.2 b.2.2 = true)
        (valid_blocks rnd st cs default_lab_session_length) with
    | nil => rw [h] at hsome; cases hsome
    | cons b' rest =>
      rw [h] at hsome
      simp only [List.head?_cons, Option.some_inj] at hsome
      rw [hsome] at h
      have hmem : b ∈ valid_blocks rnd st cs default_lab_session_length := by
        rw [← List.mem_insertionSort (r := fun a b => nat_lex_le a.2.2 b.2.2 = true), h]
        exact List.mem_cons_self _ _
      obtain ⟨h1, h2, h3, h4, h5⟩ := valid_blocks_mem hmem
      refine ⟨h1, h2, h3, h4, h5, ?_⟩
      simp only [schedule_one_lab_block]
      rw [h]

/-- Trivial tie-break oracle for witnesses. -/
def rnd0 : String × String → Nat := fun _ => 0

/-- Witness lab course for C3: two contiguous Monday slots. -/
def csW_lab : CourseState :=
  { name := "chem (lab)", faculty := "F2", room := "R2", session_type := "lab",
    weekly_target := 1, remaining := 1,
    available_slots := [("Monday", "09:00-10:00"), ("Monday", "10:00-11:00")],
    density := ⊤ }

set_option maxRecDepth 10000

/-- Witness for C3: the concrete two-slot lab block is chosen, has the block
length, and the commit writes exactly that block. -/
theorem C3_witness :
    chosen_lab_block rnd0 init_state csW_lab
        = some ("Monday", ["09:00-10:00", "10:00-11:00"], [0, 0, 1, 0, 0])
      ∧ (("Monday", ["09:00-10:00", "10:00-11:00"],
          ([0, 0, 1, 0, 0] : List Nat)) : String × List String × List Nat).2.1.length
        = default_lab_session_length
      ∧ schedule_one_lab_block rnd0 init_state csW_lab
        = (commit_block init_state csW_lab "Monday" ["09:00-10:00", "10:00-11:00"]
            default_lab_session_length, true) :=
  ⟨by decide,
   (C3_lab_block_atomic.2.2 rnd0 init_state csW_lab
     ("Monday", ["09:00-10:00", "10:00-11:00"], [0, 0, 1, 0, 0]) (by decide)).1,
   (C3_lab_block_atomic.2.2 rnd0 init_state csW_lab
     ("Monday", ["09:00-10:00", "10:00-11:00"], [0, 0, 1, 0, 0]) (by decide)).2.2.2.2.2⟩

/-! ### C1: no faculty or room double-booking -/

/-- The `(faculty, slot_key)` booking pair of a committed assignment. -/
def fac_key (a : String × String × Session) : String × String :=
  (a.2.2.faculty, slot_key a.1 a.2.1)

/-- The `(room, slot_key)` booking pair of a committed assignment. -/
def room_key (a : String × String × Session) : String × String :=
  (a.2.2.room, slot_key a.1 a.2.1)

/-- Number of committed sessions of faculty `f` at cell `(d, ts)`. -/
def fac_count (st : SolverState) (f d ts : String) : Nat :=
  (assignments st).countP (fun a => a.2.2.faculty = f && a.1 = d && a.2.1 = ts)

/-- Number of committed sessions in room `r` at cell `(d, ts)`. -/
def room_count (st : SolverState) (r d ts : String) : Nat :=
  (assignments st).countP (fun a => a.2.2.room = r && a.1 = d && a.2.1 = ts)

/-- Every committed assignment is mirrored in the faculty and room busy
sets (so `is_slot_available` sees it). -/
def Coupled (st : SolverState) : Prop :=
  ∀ a ∈ assignments st, fac_key a ∈ st.faculty_schedule ∧ room_key a ∈ st.room_schedule

/-- Claim C1's invariant: at most one scheduled session per faculty and per
room at every `(day, time-slot)` key. -/
def NoDoubleBooking (st : SolverState) : Prop :=
  (∀ f d ts, fac_count st f d ts ≤ 1) ∧ (∀ r d ts, room_count st r d ts ≤ 1)

/-- The inductive scheduling invariant: mirroring plus no double-booking. -/
def SchedInv (st : SolverState) : Prop := Coupled st ∧ NoDoubleBooking st

/-- The reset state satisfies the invariant. -/
lemma SchedInv_init : SchedInv init_state := by
  refine ⟨?_, ?_, ?_⟩
  · intro a ha
    cases ha
  · intro f d ts
    exact Nat.zero_le 1
  · intro r d ts
    exact Nat.zero_le 1

/-- Appending into one day's dictionary adds exactly one cell (as a
permutation of the flattened cells). -/
lemma day_append_cells_perm (day : String) (s : Session) :
    ∀ (dsched : DaySched) (ts : String),
      List.Perm ((day_append dsched ts s).flatMap (fun p => p.2.map (fun x => (day, p.1, x))))
        ((day, ts, s) :: dsched.flatMap (fun p => p.2.map (fun x => (day, p.1, x))))
  | [], ts => by simp [day_append]
  | p :: rest, ts => by
    simp only [day_append]
    by_cases h : p.1 = ts
    · subst h
      rw [if_pos rfl]
      simp only [List.flatMap_cons, List.map_append]
      rw [List.append_assoc]
      exact List.perm_middle
    · rw [if_neg h]
      simp only [List.flatMap_cons]
      exact ((day_append_cells_perm day s rest ts).append_left _).trans List.perm_middle

/-- Appending into the schedule adds exactly one cell. -/
lemma sched_append_cells_perm (s : Session) :
    ∀ (sched : Sched) (day ts : String),
      List.Perm (sched_cells (sched_append sched day ts s))
        ((day, ts, s) :: sched_cells sched)
  | [], day, ts => by simp [sched_append, sched_cells, day_append]
  | d :: rest, day, ts => by
    simp only [sched_append]
    by_cases h : d.1 = day
    · subst h
      rw [if_pos rfl]
      simp only [sched_cells, List.flatMap_cons]
      exact (day_append_cells_perm d.1 s d.2 ts).append_right _
    · rw [if_neg h]
      simp only [sched_cells, List.flatMap_cons]
      exact ((sched_append_cells_perm s rest day ts).append_left _).trans List.perm_middle

/-- `commit_slot` adds exactly the committed assignment. -/
lemma assignments_commit_perm (st : SolverState) (day ts : String) (s : Session) :
    List.Perm (assignments (commit_slot st day ts s)) ((day, ts, s) :: assignments st) :=
  sched_append_cells_perm s st.scheduled_slots day ts

/-- Unpack a successful availability check. -/
lemma avail_spec {st : SolverState} {day ts f r : String}
    (h : is_slot_available st day ts f r = true) :
    st.faculty_schedule.contains (f, slot_key day ts) = false
      ∧ st.room_schedule.contains (r, slot_key day ts) = false
      ∧ (!st.allow_parallel && st.global_slot_usage.contains (slot_key day ts)) = false := by
  simp only [is_slot_available] at h
  by_cases h1 : (!st.allow_parallel && st.global_slot_usage.contains (slot_key day ts)) = true
  · rw [if_pos h1] at h
    cases h
  · rw [if_neg h1] at h
    by_cases h2 : st.faculty_schedule.contains (f, slot_key day ts) = true
    · rw [if_pos h2] at h
      cases h
    · rw [if_neg h2] at h
      by_cases h3 : st.room_schedule.contains (r, slot_key day ts) = true
      · rw [if_pos h3] at h
        cases h
      · exact ⟨Bool.eq_false_iff.mpr h2, Bool.eq_false_iff.mpr h3, Bool.eq_false_iff.mpr h1⟩

/-- Reassemble a successful availability check. -/
lemma avail_intro {st : SolverState} {day ts f r : String}
    (h1 : (!st.allow_parallel && st.global_slot_usage.contains (slot_key day ts)) = false)
    (h2 : st.faculty_schedule.contains (f, slot_key day ts) = false)
    (h3 : st.room_schedule.contains (r, slot_key day ts) = false) :
    is_slot_available st day ts f r = true := by
  simp only [is_slot_available]
  rw [if_neg (Bool.eq_false_iff.mp h1), if_neg (Bool.eq_false_iff.mp h2),
    if_neg (Bool.eq_false_iff.mp h3)]

/-- `commit_slot` preserves the scheduling invariant when the committed cell
passed the availability check against the same state. -/
lemma SchedInv_commit {st : SolverState} {day ts : String} {s : Session}
    (hav : is_slot_available st day ts s.faculty s.room = true)
    (hinv : SchedInv st) : SchedInv (commit_slot st day ts s) := by
  have hcoup := hinv.1
  have hfac := hinv.2.1
  have hroom := hinv.2.2
  obtain ⟨hf_not, hr_not, _⟩ := avail_spec hav
  have hperm := assignments_commit_perm st day ts s
  refine ⟨?_, ?_, ?_⟩
  · intro a ha
    have ha' := hperm.mem_iff.mp ha
    rcases List.mem_cons.mp ha' with rfl | hold
    · exact ⟨List.mem_cons_self _ _, List.mem_cons_self _ _⟩
    · obtain ⟨hc1, hc2⟩ := hcoup a hold
      exact ⟨List.mem_cons_of_mem _ hc1, List.mem_cons_of_mem _ hc2⟩
  · intro f d t0
    have hcnt : fac_count (commit_slot st day ts s) f d t0
        = ((day, ts, s) :: assignments st).countP
          (fun a => a.2.2.faculty = f && a.1 = d && a.2.1 = t0) :=
      hperm.countP_eq _
    rw [hcnt, List.countP_cons]
    by_cases hp : (((day, ts, s).2.2.faculty = f && (day, ts, s).1 = d
        && (day, ts, s).2.1 = t0) : Bool) = true
    · rw [if_pos hp]
      simp only [Bool.and_eq_true, decide_eq_true_eq] at hp
      obtain ⟨⟨hpf, hpd⟩, hpt⟩ := hp
      have hzero : (assignments st).countP
          (fun a => a.2.2.faculty = f && a.1 = d && a.2.1 = t0) = 0 := by
        by_contra hne
        obtain ⟨a, hal, hap⟩ := List.countP_pos_iff.mp (Nat.pos_of_ne_zero hne)
        simp only [Bool.and_eq_true, decide_eq_true_eq] at hap
        obtain ⟨⟨haf, had⟩, hat⟩ := hap
        have hkey : fac_key a = (s.faculty, slot_key day ts) := by
          unfold fac_key
          rw [haf, had, hat, ← hpf, ← hpd, ← hpt]
        have hmem := (hcoup a hal).1
        rw [hkey] at hmem
        have := List.elem_eq_true_of_mem hmem
        rw [show st.faculty_schedule.contains (s.faculty, slot_key day ts)
            = List.elem (s.faculty, slot_key day ts) st.faculty_schedule from rfl] at hf_not
        rw [this] at hf_not
        cases hf_not
      omega
    · rw [if_neg hp, Nat.add_zero]
      exact hfac f d t0
  · intro r d t0
    have hcnt : room_count (commit_slot st day ts s) r d t0
        = ((day, ts, s) :: assignments st).countP
          (fun a => a.2.2.room = r && a.1 = d && a.2.1 = t0) :=
      hperm.countP_eq _
    rw [hcnt, List.countP_cons]
    by_cases hp : (((day, ts, s).2.2.room = r && (day, ts, s).1 = d
        && (day, ts, s).2.1 = t0) : Bool) = true
    · rw [if_pos hp]
      simp only [Bool.and_eq_true, decide_eq_true_eq] at hp
      obtain ⟨⟨hpr, hpd⟩, hpt⟩ := hp
      have hzero : (assignments st).countP
          (fun a => a.2.2.room = r && a.1 = d && a.2.1 = t0) = 0 := by
        by_contra hne
        obtain ⟨a, hal, hap⟩ := List.countP_pos_iff.mp (Nat.pos_of_ne_zero hne)
        simp only [Bool.and_eq_true, decide_eq_true_eq] at hap
        obtain ⟨⟨har, had⟩, hat⟩ := hap
        have hkey : room_key a = (s.room, slot_key day ts) := by
          unfold room_key
          rw [har, had, hat, ← hpr, ← hpd, ← hpt]
        have hmem := (hcoup a hal).2
        rw [hkey] at hmem
        have := List.elem_eq_true_of_mem hmem
        rw [show st.room_schedule.contains (s.room, slot_key day ts)
            = List.elem (s.room, slot_key day ts) st.room_schedule from rfl] at hr_not
        rw [this] at hr_not
        cases hr_not
      omega
    · rw [if_neg hp, Nat.add_zero]
      exact hroom r d t0

/-- A `contains = false` fact gives non-membership. -/
lemma not_mem_of_contains_false {α : Type} [BEq α] [LawfulBEq α] {l : List α} {a : α}
    (h : l.contains a = false) : a ∉ l := by
  intro hmem
  have helem := List.elem_eq_true_of_mem hmem
  rw [show l.contains a = List.elem a l from rfl, helem] at h
  cases h

/-- Slot keys of one day separate its time slots. -/
lemma slot_key_right_inj {d t1 t2 : String} (h : slot_key d t1 = slot_key d t2) : t1 = t2 := by
  unfold slot_key at h
  have h' : (d ++ "_").data ++ t1.data = (d ++ "_").data ++ t2.data := by
    have hd := congrArg String.data h
    rwa [String.data_append, String.data_append] at hd
  exact String.ext (List.append_cancel_left h')

/-- Committing one cell does not disturb the availability of a cell with a
different slot key. -/
lemma avail_commit_of_ne {st : SolverState} {day ts : String} {s : Session}
    {d2 t2 f r : String} (hne : slot_key d2 t2 ≠ slot_key day ts)
    (h : is_slot_available st d2 t2 f r = true) :
    is_slot_available (commit_slot st day ts s) d2 t2 f r = true := by
  obtain ⟨hf, hr, hg⟩ := avail_spec h
  have hbeq_fac : (((f, slot_key d2 t2) : String × String)
      == (s.faculty, slot_key day ts)) = false := by
    apply beq_eq_false_iff_ne.mpr
    intro hcontra
    exact hne (congrArg Prod.snd hcontra)
  have hbeq_room : (((r, slot_key d2 t2) : String × String)
      == (s.room, slot_key day ts)) = false := by
    apply beq_eq_false_iff_ne.mpr
    intro hcontra
    exact hne (congrArg Prod.snd hcontra)
  have hbeq_key : ((slot_key d2 t2) == (slot_key day ts)) = false :=
    beq_eq_false_iff_ne.mpr hne
  apply avail_intro
  · show (!st.allow_parallel
        && (if !st.allow_parallel then slot_key day ts :: st.global_slot_usage
            else st.global_slot_usage).contains (slot_key d2 t2)) = false
    by_cases hap : st.allow_parallel = true
    · simp [hap]
    · have hap2 : st.allow_parallel = false := Bool.eq_false_iff.mpr hap
      simp only [hap2, Bool.not_false, Bool.true_and] at hg
      simp only [hap2, Bool.not_false, Bool.true_and]
      simp
      exact ⟨hne, not_mem_of_contains_false hg⟩
  · show ((s.faculty, slot_key day ts) :: st.faculty_schedule).contains
        (f, slot_key d2 t2) = false
    rw [List.contains_cons, hbeq_fac, Bool.false_or]
    exact hf
  · show ((s.room, slot_key day ts) :: st.room_schedule).contains
        (r, slot_key d2 t2) = false
    rw [List.contains_cons, hbeq_room, Bool.false_or]
    exact hr

/-- An index-contiguous segment has pairwise distinct slots. -/
lemma seg_consecutive_pairwise_ne {seg : List String} (h : seg_consecutive seg = true) :
    seg.Pairwise (fun a b => a ≠ b) := by
  cases hseg : seg with
  | nil => exact List.Pairwise.nil
  | cons t0 rest =>
    rw [hseg] at h
    simp only [seg_consecutive] at h
    rw [List.all_eq_true] at h
    rw [List.pairwise_iff_getElem]
    intro i j hi hj hij
    have hli : i < ((t0 :: rest).enum).length := by simpa using hi
    have hlj : j < ((t0 :: rest).enum).length := by simpa using hj
    have hfi := h ((t0 :: rest).enum[i]) (List.getElem_mem hli)
    have hfj := h ((t0 :: rest).enum[j]) (List.getElem_mem hlj)
    rw [List.getElem_enum] at hfi hfj
    simp only [decide_eq_true_eq] at hfi hfj
    intro hcontra
    rw [hcontra] at hfi
    rw [hfj] at hfi
    omega

/-- Committing a whole block of pairwise-distinct slots, each available in
the starting state, preserves the invariant. -/
lemma SchedInv_commit_block {cs : CourseState} {day : String} {bh : Nat} :
    ∀ (seg : List String) (st : SolverState), SchedInv st →
      (∀ ts ∈ seg, is_slot_available st day ts cs.faculty cs.room = true) →
      seg.Pairwise (fun a b => a ≠ b) →
      SchedInv (commit_block st cs day seg bh)
  | [], st, hinv, _, _ => hinv
  | t0 :: rest, st, hinv, hav, hpair => by
    have hav0 := hav t0 (List.mem_cons_self _ _)
    have hinv1 := @SchedInv_commit st day t0 { course := cs.name, faculty := cs.faculty, room := cs.room, duration := bh, session_type := "lab" } hav0 hinv
    refine SchedInv_commit_block rest _ hinv1 ?_ hpair.of_cons
    intro ts hts
    apply avail_commit_of_ne
    · intro hcontra
      exact List.rel_of_pairwise_cons hpair hts (slot_key_right_inj hcontra).symm
    · exact hav ts (List.mem_cons_of_mem _ hts)

/-- `_schedule_one_lecture_session` preserves the invariant. -/
lemma SchedInv_lecture (rnd : String × String → Nat) (st : SolverState) (cs : CourseState)
    (hinv : SchedInv st) : SchedInv (schedule_one_lecture_session rnd st cs).1 := by
  cases h : List.insertionSort
      (fun a b => nat_lex_le (lecture_score rnd st cs.faculty cs.name a)
        (lecture_score rnd st cs.faculty cs.name b) = true)
      (cs.available_slots.filter (fun p =>
        is_slot_available st p.1 p.2 cs.faculty cs.room
          && !has_student_conflict st p.1 p.2 cs.name)) with
  | nil =>
    have heq : schedule_one_lecture_session rnd st cs = (st, false) := by
      simp only [schedule_one_lecture_session]
      rw [h]
    rw [heq]
    exact hinv
  | cons p rest =>
    have heq : schedule_one_lecture_session rnd st cs
        = (commit_slot st p.1 p.2 { course := cs.name, faculty := cs.faculty, room := cs.room, duration := 1, session_type := "lecture" }, true) := by
      simp only [schedule_one_lecture_session]
      rw [h]
    rw [heq]
    have hp : p ∈ cs.available_slots.filter (fun p =>
        is_slot_available st p.1 p.2 cs.faculty cs.room
          && !has_student_conflict st p.1 p.2 cs.name) := by
      rw [← List.mem_insertionSort
        (r := fun a b => nat_lex_le (lecture_score rnd st cs.faculty cs.name a)
          (lecture_score rnd st cs.faculty cs.name b) = true), h]
      exact List.mem_cons_self _ _
    have hcond := (List.mem_filter.mp hp).2
    rw [Bool.and_eq_true] at hcond
    exact SchedInv_commit hcond.1 hinv

/-- `_schedule_one_lab_block` preserves the invariant. -/
lemma SchedInv_lab (rnd : String × String → Nat) (st : SolverState) (cs : CourseState)
    (hinv : SchedInv st) : SchedInv (schedule_one_lab_block rnd st cs).1 := by
  cases h : List.insertionSort (fun a b => nat_lex_le a.2.2 b.2.2 = true)
      (valid_blocks rnd st cs default_lab_session_length) with
  | nil =>
    have heq : schedule_one_lab_block rnd st cs = (st, false) := by
      simp only [schedule_one_lab_block]
      rw [h]
    rw [heq]
    exact hinv
  | cons b rest =>
    have heq : schedule_one_lab_block rnd st cs
        = (commit_block st cs b.1 b.2.1 default_lab_session_length, true) := by
      simp only [schedule_one_lab_block]
      rw [h]
    rw [heq]
    have hmem : b ∈ valid_blocks rnd st cs default_lab_session_length := by
      rw [← List.mem_insertionSort (r := fun a b => nat_lex_le a.2.2 b.2.2 = true), h]
      exact List.mem_cons_self _ _
    obtain ⟨_, h2, _, h4, _⟩ := valid_blocks_mem hmem
    exact SchedInv_commit_block b.2.1 st hinv h4 (seg_consecutive_pairwise_ne h2)

/-- The per-course round body preserves the invariant. -/
lemma SchedInv_run_course (rnd : String × String → Nat) (st : SolverState) (cs : CourseState)
    (hinv : SchedInv st) : SchedInv (run_course rnd st cs).1 := by
  simp only [run_course]
  by_cases h0 : cs.remaining = 0
  · rw [if_pos h0]
    exact hinv
  · rw [if_neg h0]
    by_cases hlab : cs.session_type = "lab"
    · rw [if_pos hlab]
      by_cases hr : (schedule_one_lab_block rnd st cs).2 = true
      · rw [if_pos hr]
        exact SchedInv_lab rnd st cs hinv
      · rw [if_neg hr]
        exact SchedInv_lab rnd st cs hinv
    · rw [if_neg hlab]
      by_cases hr : (schedule_one_lecture_session rnd st cs).2 = true
      · rw [if_pos hr]
        exact SchedInv_lecture rnd st cs hinv
      · rw [if_neg hr]
        exact SchedInv_lecture rnd st cs hinv

/-- A full round preserves the invariant. -/
lemma SchedInv_run_round (rnd : Nat → String × String → Nat) :
    ∀ (states : List CourseState) (st : SolverState) (i : Nat), SchedInv st →
      SchedInv (run_round rnd st states i).1
  | [], st, i, hinv => hinv
  | cs :: rest, st, i, hinv => by
    simp only [run_round]
    exact SchedInv_run_round rnd rest _ (i + 1) (SchedInv_run_course (rnd i) st cs hinv)

/-- The bounded round loop preserves the invariant. -/
lemma SchedInv_run_rounds (rnd : Nat → Nat → String × String → Nat) :
    ∀ (fuel idx : Nat) (st : SolverState) (states : List CourseState), SchedInv st →
      SchedInv (run_rounds rnd fuel idx st states).1
  | 0, _, _, _, hinv => hinv
  | fuel + 1, idx, st, states, hinv => by
    simp only [run_rounds]
    by_cases hp : (run_round (rnd idx) st states 0).2.2 = true
    · rw [if_pos hp]
      exact SchedInv_run_rounds rnd fuel (idx + 1) _ _
        (SchedInv_run_round (rnd idx) states st 0 hinv)
    · rw [if_neg hp]
      exact SchedInv_run_round (rnd idx) states st 0 hinv

/-- A fold step that leaves a projection alone leaves it alone overall. -/
lemma foldl_preserves {σ β α : Type} (proj : σ → α) (f : σ → β → σ)
    (hf : ∀ s b, proj (f s b) = proj s) :
    ∀ (l : List β) (s : σ), proj (l.foldl f s) = proj s
  | [], _ => rfl
  | b :: t, s => by
    rw [List.foldl_cons, foldl_preserves proj f hf t (f s b), hf]

/-- `mark_deficits` only touches `failure_reasons`. -/
lemma mark_deficits_proj {α : Type} (proj : SolverState → α)
    (hproj : ∀ (s : SolverState) (fr : List (String × String)),
      proj { s with failure_reasons := fr } = proj s)
    (st : SolverState) (states : List CourseState) :
    proj (mark_deficits st states) = proj st := by
  unfold mark_deficits
  apply foldl_preserves
  intro s cs
  by_cases h : (cs.remaining > 0 && !(s.failure_reasons.any (fun p => p.1 = cs.name))) = true
  · rw [if_pos h]
    exact hproj s _
  · rw [if_neg h]

/-- `_post_validate_weekly_counts` only touches `failure_reasons`. -/
lemma post_validate_proj {α : Type} (proj : SolverState → α)
    (hproj : ∀ (s : SolverState) (fr : List (String × String)),
      proj { s with failure_reasons := fr } = proj s)
    (st : SolverState) :
    proj (post_validate_weekly_counts st) = proj st := by
  unfold post_validate_weekly_counts
  apply foldl_preserves
  intro s pr
  unfold post_validate_step
  by_cases h1 : (lookupN s.actual_weekly pr.1 < pr.2
      && !(s.failure_reasons.any (fun q => q.1 = pr.1))) = true
  · rw [if_pos h1]
    exact hproj s _
  · rw [if_neg h1]
    by_cases h2 : (lookupN s.actual_weekly pr.1 > pr.2
        && !(s.failure_reasons.any (fun q => q.1 = pr.1))) = true
    · rw [if_pos h2]
      exact hproj s _
    · rw [if_neg h2]

/-- The invariant only looks at the schedule and the two busy sets. -/
lemma SchedInv_of_fields_eq {st st2 : SolverState}
    (h1 : st2.scheduled_slots = st.scheduled_slots)
    (h2 : st2.faculty_schedule = st.faculty_schedule)
    (h3 : st2.room_schedule = st.room_schedule)
    (hinv : SchedInv st) : SchedInv st2 := by
  unfold SchedInv Coupled NoDoubleBooking fac_count room_count assignments at hinv ⊢
  rw [h1, h2, h3]
  exact hinv

/-- The fresh state built by `solve_timetable` satisfies the invariant. -/
lemma SchedInv_build (infos : List CourseInfo) : SchedInv (build_course_states infos).1 :=
  SchedInv_of_fields_eq rfl rfl rfl SchedInv_init

/-- The full pipeline keeps the invariant. -/
lemma SchedInv_solve (rnd rnd2 : Nat → Nat → String × String → Nat)
    (infos : List CourseInfo) : SchedInv (solve_timetable rnd rnd2 infos).1 := by
  have hmain : SchedInv (solve_main rnd infos).1 := by
    unfold solve_main
    refine SchedInv_of_fields_eq
      (mark_deficits_proj (fun s => s.scheduled_slots) (fun _ _ => rfl) _ _)
      (mark_deficits_proj (fun s => s.faculty_schedule) (fun _ _ => rfl) _ _)
      (mark_deficits_proj (fun s => s.room_schedule) (fun _ _ => rfl) _ _) ?_
    exact SchedInv_run_rounds rnd MAX_ROUNDS 0 _ _ (SchedInv_build infos)
  have hrelax : SchedInv (emergency_relaxation rnd2 (solve_main rnd infos)).1 := by
    unfold emergency_relaxation
    by_cases hc : unsatisfied_names (solve_main rnd infos).2 ≠ []
        ∧ (unsatisfied_names (solve_main rnd infos).2).length ≤ 3
    · rw [if_pos hc]
      apply SchedInv_run_rounds
      exact SchedInv_of_fields_eq rfl rfl rfl hmain
    · rw [if_neg hc]
      exact hmain
  unfold solve_timetable
  exact SchedInv_of_fields_eq
    (post_validate_proj (fun s => s.scheduled_slots) (fun _ _ => rfl) _)
    (post_validate_proj (fun s => s.faculty_schedule) (fun _ _ => rfl) _)
    (post_validate_proj (fun s => s.room_schedule) (fun _ _ => rfl) _) hrelax

/-- Claim C1: `is_slot_available` rejects a cell whose faculty or room is
already busy at that slot key, and — since both commit paths check it (and
the cohort predicate) before writing — every per-session commit preserves
the at-most-one-session-per-faculty/room-per-slot-key invariant, which
consequently holds for the state of every full scheduling run. -/
theorem C1_no_double_booking :
    (∀ (st : SolverState) (d ts f r : String),
        ((f, slot_key d ts) ∈ st.faculty_schedule ∨ (r, slot_key d ts) ∈ st.room_schedule) →
        is_slot_available st d ts f r = false)
      ∧ (∀ (rnd : String × String → Nat) (st : SolverState) (cs : CourseState),
          SchedInv st → SchedInv (schedule_one_lecture_session rnd st cs).1)
      ∧ (∀ (rnd : String × String → Nat) (st : SolverState) (cs : CourseState),
          SchedInv st → SchedInv (schedule_one_lab_block rnd st cs).1)
      ∧ (∀ (rnd rnd2 : Nat → Nat → String × String → Nat) (infos : List CourseInfo),
          SchedInv (solve_timetable rnd rnd2 infos).1
            ∧ NoDoubleBooking (solve_timetable rnd rnd2 infos).1) := by
  refine ⟨?_, SchedInv_lecture, SchedInv_lab, ?_⟩
  · intro st d ts f r hmem
    cases hval : is_slot_available st d ts f r with
    | false => rfl
    | true =>
      exfalso
      obtain ⟨hf, hr, _⟩ := avail_spec hval
      rcases hmem with hm | hm
      · exact not_mem_of_contains_false hf hm
      · exact not_mem_of_contains_false hr hm
  · intro rnd rnd2 infos
    exact ⟨SchedInv_solve rnd rnd2 infos, (SchedInv_solve rnd rnd2 infos).2⟩

/-- Witness for C1: a state with a busy faculty rejects the slot, and the
per-session steps preserve the invariant from the fresh state. -/
theorem C1_witness :
    ((("F1", slot_key "Monday" "09:00-10:00")
        ∈ ({ init_state with
          faculty_schedule := [("F1", slot_key "Monday" "09:00-10:00")] }
          : SolverState).faculty_schedule)
      ∧ is_slot_available { init_state with
          faculty_schedule := [("F1", slot_key "Monday" "09:00-10:00")] }
          "Monday" "09:00-10:00" "F1" "R1" = false)
      ∧ SchedInv (schedule_one_lecture_session rnd0 init_state csW_lab).1 :=
  ⟨⟨by decide,
    C1_no_double_booking.1 { init_state with
      faculty_schedule := [("F1", slot_key "Monday" "09:00-10:00")] }
      "Monday" "09:00-10:00" "F1" "R1" (Or.inl (by decide))⟩,
   C1_no_double_booking.2.1 rnd0 init_state csW_lab SchedInv_init⟩

/-! ### C2: committed units never exceed the weekly target -/

/-- Empty counters look up to zero. -/
lemma lookupN_nil {α : Type} [DecidableEq α] (k : α) : lookupN ([] : List (α × Nat)) k = 0 := rfl

/-- Counter lookup hitting the head. -/
lemma lookupN_cons_eq {α : Type} [DecidableEq α] {a : α × Nat} {m : List (α × Nat)} {k : α}
    (h : a.1 = k) : lookupN (a :: m) k = a.2 := by
  unfold lookupN
  rw [List.find?_cons_of_pos _ (by simp [h])]

/-- Counter lookup skipping the head. -/
lemma lookupN_cons_ne {α : Type} [DecidableEq α] {a : α × Nat} {m : List (α × Nat)} {k : α}
    (h : ¬ a.1 = k) : lookupN (a :: m) k = lookupN m k := by
  unfold lookupN
  rw [List.find?_cons_of_neg _ (by simp [h])]

/-- Bumping a counter raises its own key's count by one. -/
lemma lookupN_bumpN_self {α : Type} [DecidableEq α] :
    ∀ (m : List (α × Nat)) (k : α), lookupN (bumpN m k) k = lookupN m k + 1
  | [], k => by
    simp only [bumpN]
    rw [lookupN_cons_eq rfl, lookupN_nil]
  | p :: rest, k => by
    simp only [bumpN]
    by_cases h : p.1 = k
    · rw [if_pos h, lookupN_cons_eq (show ((p.1, p.2 + 1) : α × Nat).1 = k from h),
        lookupN_cons_eq h]
    · rw [if_neg h, lookupN_cons_ne h, lookupN_cons_ne h]
      exact lookupN_bumpN_self rest k

/-- Bumping a counter leaves other keys alone. -/
lemma lookupN_bumpN_ne {α : Type} [DecidableEq α] :
    ∀ (m : List (α × Nat)) (k k2 : α), k ≠ k2 → lookupN (bumpN m k) k2 = lookupN m k2
  | [], k, k2, h => by
    simp only [bumpN]
    rw [lookupN_cons_ne (fun he => h he), lookupN_nil]
  | p :: rest, k, k2, h => by
    simp only [bumpN]
    by_cases hp : p.1 = k
    · rw [if_pos hp]
      have hp2 : ¬ p.1 = k2 := fun he => h (hp.symm.trans he)
      rw [lookupN_cons_ne (show ¬ ((p.1, p.2 + 1) : α × Nat).1 = k2 from hp2),
        lookupN_cons_ne hp2]
    · rw [if_neg hp]
      by_cases hp2 : p.1 = k2
      · rw [lookupN_cons_eq hp2, lookupN_cons_eq hp2]
      · rw [lookupN_cons_ne hp2, lookupN_cons_ne hp2]
        exact lookupN_bumpN_ne rest k k2 h

/-- The weekly unit a successful placement adds: block hours for labs,
one session for lectures. -/
def unit_of (cs : CourseState) : Nat :=
  if cs.session_type = "lab" then default_lab_session_length else 1

/-- The accounting invariant for one course state: committed units are
`(target - remaining) * unit` and the expected total is `target * unit`. -/
def CourseTracked (st : SolverState) (cs : CourseState) : Prop :=
  cs.remaining ≤ cs.weekly_target
    ∧ lookupN st.actual_weekly cs.name = (cs.weekly_target - cs.remaining) * unit_of cs
    ∧ lookupN st.expected_weekly cs.name = cs.weekly_target * unit_of cs

/-- The accounting invariant for the whole course list (names unique, as the
Python dict keys are). -/
def Tracked (st : SolverState) (states : List CourseState) : Prop :=
  (states.map (fun cs => cs.name)).Nodup ∧ ∀ cs ∈ states, CourseTracked st cs

/-- The invariant only reads the two weekly counters. -/
lemma CourseTracked_of_lookup_eq {st st2 : SolverState} {cs : CourseState}
    (ha : lookupN st2.actual_weekly cs.name = lookupN st.actual_weekly cs.name)
    (he : lookupN st2.expected_weekly cs.name = lookupN st.expected_weekly cs.name)
    (h : CourseTracked st cs) : CourseTracked st2 cs :=
  ⟨h.1, ha.trans h.2.1, he.trans h.2.2⟩

/-- Transport `Tracked` along equal counter fields. -/
lemma Tracked_of_fields_eq {st st2 : SolverState}
    (ha : st2.actual_weekly = st.actual_weekly)
    (he : st2.expected_weekly = st.expected_weekly)
    {states : List CourseState} (h : Tracked st states) : Tracked st2 states :=
  ⟨h.1, fun cs hcs => CourseTracked_of_lookup_eq (by rw [ha]) (by rw [he]) (h.2 cs hcs)⟩

/-- A committed block bumps the course's counter once per slot. -/
lemma commit_block_actual_self (cs : CourseState) (day : String) (bh : Nat) :
    ∀ (seg : List String) (st : SolverState),
      lookupN (commit_block st cs day seg bh).actual_weekly cs.name
        = lookupN st.actual_weekly cs.name + seg.length
  | [], st => rfl
  | t :: rest, st => by
    have step : commit_block st cs day (t :: rest) bh
        = commit_block (commit_slot st day t { course := cs.name, faculty := cs.faculty, room := cs.room, duration := bh, session_type := "lab" }) cs day rest bh := rfl
    rw [step, commit_block_actual_self cs day bh rest]
    have hb : (commit_slot st day t { course := cs.name, faculty := cs.faculty, room := cs.room, duration := bh, session_type := "lab" }).actual_weekly
        = bumpN st.actual_weekly cs.name := rfl
    rw [hb, lookupN_bumpN_self]
    simp only [List.length_cons]
    omega

/-- A committed block leaves other courses' counters alone. -/
lemma commit_block_actual_ne (cs : CourseState) (day : String) (bh : Nat) (n : String)
    (hn : n ≠ cs.name) (seg : List String) (st : SolverState) :
    lookupN (commit_block st cs day seg bh).actual_weekly n
      = lookupN st.actual_weekly n :=
  foldl_preserves (fun s => lookupN s.actual_weekly n)
    (fun s ts => commit_slot s day ts { course := cs.name, faculty := cs.faculty, room := cs.room, duration := bh, session_type := "lab" })
    (fun s _ => lookupN_bumpN_ne s.actual_weekly cs.name n (fun he => hn he.symm)) seg st

/-- A committed block never touches the expected counters. -/
lemma commit_block_expected (cs : CourseState) (day : String) (bh : Nat) :
    ∀ (seg : List String) (st : SolverState),
      (commit_block st cs day seg bh).expected_weekly = st.expected_weekly
  | [], _ => rfl
  | t :: rest, st => by
    have step : commit_block st cs day (t :: rest) bh
        = commit_block (commit_slot st day t { course := cs.name, faculty := cs.faculty, room := cs.room, duration := bh, session_type := "lab" }) cs day rest bh := rfl
    rw [step, commit_block_expected cs day bh rest]
    rfl

/-- Failure leaves the state untouched (lecture step). -/
lemma lecture_fail (rnd : String × String → Nat) (st : SolverState) (cs : CourseState)
    (h : (schedule_one_lecture_session rnd st cs).2 = false) :
    (schedule_one_lecture_session rnd st cs).1 = st := by
  cases hs : List.insertionSort
      (fun a b => nat_lex_le (lecture_score rnd st cs.faculty cs.name a)
        (lecture_score rnd st cs.faculty cs.name b) = true)
      (cs.available_slots.filter (fun p =>
        is_slot_available st p.1 p.2 cs.faculty cs.room
          && !has_student_conflict st p.1 p.2 cs.name)) with
  | nil =>
    have heq : schedule_one_lecture_session rnd st cs = (st, false) := by
      simp only [schedule_one_lecture_session]
      rw [hs]
    rw [heq]
  | cons p rest =>
    have heq : (schedule_one_lecture_session rnd st cs).2 = true := by
      simp only [schedule_one_lecture_session]
      rw [hs]
    rw [heq] at h
    cases h

/-- Success bumps exactly the scheduled course's counter by one (lecture). -/
lemma lecture_actual_self (rnd : String × String → Nat) (st : SolverState) (cs : CourseState)
    (h : (schedule_one_lecture_session rnd st cs).2 = true) :
    lookupN (schedule_one_lecture_session rnd st cs).1.actual_weekly cs.name
      = lookupN st.actual_weekly cs.name + 1 := by
  cases hs : List.insertionSort
      (fun a b => nat_lex_le (lecture_score rnd st cs.faculty cs.name a)
        (lecture_score rnd st cs.faculty cs.name b) = true)
      (cs.available_slots.filter (fun p =>
        is_slot_available st p.1 p.2 cs.faculty cs.room
          && !has_student_conflict st p.1 p.2 cs.name)) with
  | nil =>
    have heq : (schedule_one_lecture_session rnd st cs).2 = false := by
      simp only [schedule_one_lecture_session]
      rw [hs]
    rw [heq] at h
    cases h
  | cons p rest =>
    have heq : (schedule_one_lecture_session rnd st cs).1
        = commit_slot st p.1 p.2 { course := cs.name, faculty := cs.faculty, room := cs.room, duration := 1, session_type := "lecture" } := by
      simp only [schedule_one_lecture_session]
      rw [hs]
    rw [heq]
    have hb : (commit_slot st p.1 p.2 { course := cs.name, faculty := cs.faculty, room := cs.room, duration := 1, session_type := "lecture" }).actual_weekly
        = bumpN st.actual_weekly cs.name := rfl
    rw [hb, lookupN_bumpN_self]

/-- A lecture step only ever bumps its own course's counter. -/
lemma lecture_actual_ne (rnd : String × String → Nat) (st : SolverState) (cs : CourseState)
    (n : String) (hn : n ≠ cs.name) :
    lookupN (schedule_one_lecture_session rnd st cs).1.actual_weekly n
      = lookupN st.actual_weekly n := by
  cases hs : List.insertionSort
      (fun a b => nat_lex_le (lecture_score rnd st cs.faculty cs.name a)
        (lecture_score rnd st cs.faculty cs.name b) = true)
      (cs.available_slots.filter (fun p =>
        is_slot_available st p.1 p.2 cs.faculty cs.room
          && !has_student_conflict st p.1 p.2 cs.name)) with
  | nil =>
    have heq : (schedule_one_lecture_session rnd st cs).1 = st := by
      simp only [schedule_one_lecture_session]
      rw [hs]
    rw [heq]
  | cons p rest =>
    have heq : (schedule_one_lecture_session rnd st cs).1
        = commit_slot st p.1 p.2 { course := cs.name, faculty := cs.faculty, room := cs.room, duration := 1, session_type := "lecture" } := by
      simp only [schedule_one_lecture_session]
      rw [hs]
    rw [heq]
    have hb : (commit_slot st p.1 p.2 { course := cs.name, faculty := cs.faculty, room := cs.room, duration := 1, session_type := "lecture" }).actual_weekly
        = bumpN st.actual_weekly cs.name := rfl
    rw [hb]
    exact lookupN_bumpN_ne _ _ _ (fun he => hn he.symm)

/-- A lecture step never touches the expected counters. -/
lemma lecture_expected (rnd : String × String → Nat) (st : SolverState) (cs : CourseState) :
    (schedule_one_lecture_session rnd st cs).1.expected_weekly = st.expected_weekly := by
  cases hs : List.insertionSort
      (fun a b => nat_lex_le (lecture_score rnd st cs.faculty cs.name a)
        (lecture_score rnd st cs.faculty cs.name b) = true)
      (cs.available_slots.filter (fun p =>
        is_slot_available st p.1 p.2 cs.faculty cs.room
          && !has_student_conflict st p.1 p.2 cs.name)) with
  | nil =>
    have heq : (schedule_one_lecture_session rnd st cs).1 = st := by
      simp only [schedule_one_lecture_session]
      rw [hs]
    rw [heq]
  | cons p rest =>
    have heq : (schedule_one_lecture_session rnd st cs).1
        = commit_slot st p.1 p.2 { course := cs.name, faculty := cs.faculty, room := cs.room, duration := 1, session_type := "lecture" } := by
      simp only [schedule_one_lecture_session]
      rw [hs]
    rw [heq]
    rfl

/-- Failure leaves the state untouched (lab step). -/
lemma lab_fail (rnd : String × String → Nat) (st : SolverState) (cs : CourseState)
    (h : (schedule_one_lab_block rnd st cs).2 = false) :
    (schedule_one_lab_block rnd st cs).1 = st := by
  cases hs : List.insertionSort (fun a b => nat_lex_le a.2.2 b.2.2 = true)
      (valid_blocks rnd st cs default_lab_session_length) with
  | nil =>
    have heq : schedule_one_lab_block rnd st cs = (st, false) := by
      simp only [schedule_one_lab_block]
      rw [hs]
    rw [heq]
  | cons b rest =>
    have heq : (schedule_one_lab_block rnd st cs).2 = true := by
      simp only [schedule_one_lab_block]
      rw [hs]
    rw [heq] at h
    cases h

/-- Success adds exactly one block of hours to the scheduled course (lab). -/
lemma lab_actual_self (rnd : String × String → Nat) (st : SolverState) (cs : CourseState)
    (h : (schedule_one_lab_block rnd st cs).2 = true) :
    lookupN (schedule_one_lab_block rnd st cs).1.actual_weekly cs.name
      = lookupN st.actual_weekly cs.name + default_lab_session_length := by
  cases hs : List.insertionSort (fun a b => nat_lex_le a.2.2 b.2.2 = true)
      (valid_blocks rnd st cs default_lab_session_length) with
  | nil =>
    have heq : (schedule_one_lab_block rnd st cs).2 = false := by
      simp only [schedule_one_lab_block]
      rw [hs]
    rw [heq] at h
    cases h
  | cons b rest =>
    have heq : (schedule_one_lab_block rnd st cs).1
        = commit_block st cs b.1 b.2.1 default_lab_session_length := by
      simp only [schedule_one_lab_block]
      rw [hs]
    have hmem : b ∈ valid_blocks rnd st cs default_lab_session_length := by
      rw [← List.mem_insertionSort (r := fun a b => nat_lex_le a.2.2 b.2.2 = true), hs]
      exact List.mem_cons_self _ _
    rw [heq, commit_block_actual_self, (valid_blocks_mem hmem).1]

/-- A lab step only ever bumps its own course's counter. -/
lemma lab_actual_ne (rnd : String × String → Nat) (st : SolverState) (cs : CourseState)
    (n : String) (hn : n ≠ cs.name) :
    lookupN (schedule_one_lab_block rnd st cs).1.actual_weekly n
      = lookupN st.actual_weekly n := by
  cases hs : List.insertionSort (fun a b => nat_lex_le a.2.2 b.2.2 = true)
      (valid_blocks rnd st cs default_lab_session_length) with
  | nil =>
    have heq : (schedule_one_lab_block rnd st cs).1 = st := by
      simp only [schedule_one_lab_block]
      rw [hs]
    rw [heq]
  | cons b rest =>
    have heq : (schedule_one_lab_block rnd st cs).1
        = commit_block st cs b.1 b.2.1 default_lab_session_length := by
      simp only [schedule_one_lab_block]
      rw [hs]
    rw [heq, commit_block_actual_ne cs b.1 default_lab_session_length n hn]

/-- A lab step never touches the expected counters. -/
lemma lab_expected (rnd : String × String → Nat) (st : SolverState) (cs : CourseState) :
    (schedule_one_lab_block rnd st cs).1.expected_weekly = st.expected_weekly := by
  cases hs : List.insertionSort (fun a b => nat_lex_le a.2.2 b.2.2 = true)
      (valid_blocks rnd st cs default_lab_session_length) with
  | nil =>
    have heq : (schedule_one_lab_block rnd st cs).1 = st := by
      simp only [schedule_one_lab_block]
      rw [hs]
    rw [heq]
  | cons b rest =>
    have heq : (schedule_one_lab_block rnd st cs).1
        = commit_block st cs b.1 b.2.1 default_lab_session_length := by
      simp only [schedule_one_lab_block]
      rw [hs]
    rw [heq, commit_block_expected]

/-- The round body does not change a course's identity fields. -/
lemma run_course_fields (rnd : String × String → Nat) (st : SolverState) (cs : CourseState) :
    (run_course rnd st cs).2.1.name = cs.name
      ∧ (run_course rnd st cs).2.1.weekly_target = cs.weekly_target
      ∧ (run_course rnd st cs).2.1.session_type = cs.session_type := by
  simp only [run_course]
  by_cases h0 : cs.remaining = 0
  · rw [if_pos h0]
    exact ⟨rfl, rfl, rfl⟩
  · rw [if_neg h0]
    by_cases hlab : cs.session_type = "lab"
    · rw [if_pos hlab]
      by_cases hr : (schedule_one_lab_block rnd st cs).2 = true
      · rw [if_pos hr]
        exact ⟨rfl, rfl, rfl⟩
      · rw [if_neg hr]
        exact ⟨rfl, rfl, rfl⟩
    · rw [if_neg hlab]
      by_cases hr : (schedule_one_lecture_session rnd st cs).2 = true
      · rw [if_pos hr]
        exact ⟨rfl, rfl, rfl⟩
      · rw [if_neg hr]
        exact ⟨rfl, rfl, rfl⟩

/-- The round body never touches the expected counters. -/
lemma run_course_expected (rnd : String × String → Nat) (st : SolverState) (cs : CourseState) :
    (run_course rnd st cs).1.expected_weekly = st.expected_weekly := by
  simp only [run_course]
  by_cases h0 : cs.remaining = 0
  · rw [if_pos h0]
  · rw [if_neg h0]
    by_cases hlab : cs.session_type = "lab"
    · rw [if_pos hlab]
      by_cases hr : (schedule_one_lab_block rnd st cs).2 = true
      · rw [if_pos hr]
        exact lab_expected rnd st cs
      · rw [if_neg hr]
        exact lab_expected rnd st cs
    · rw [if_neg hlab]
      by_cases hr : (schedule_one_lecture_session rnd st cs).2 = true
      · rw [if_pos hr]
        exact lecture_expected rnd st cs
      · rw [if_neg hr]
        exact lecture_expected rnd st cs

/-- The round body only bumps its own course's counter. -/
lemma run_course_actual_ne (rnd : String × String → Nat) (st : SolverState) (cs : CourseState)
    (n : String) (hn : n ≠ cs.name) :
    lookupN (run_course rnd st cs).1.actual_weekly n = lookupN st.actual_weekly n := by
  simp only [run_course]
  by_cases h0 : cs.remaining = 0
  · rw [if_pos h0]
  · rw [if_neg h0]
    by_cases hlab : cs.session_type = "lab"
    · rw [if_pos hlab]
      by_cases hr : (schedule_one_lab_block rnd st cs).2 = true
      · rw [if_pos hr]
        exact lab_actual_ne rnd st cs n hn
      · rw [if_neg hr]
        exact lab_actual_ne rnd st cs n hn
    · rw [if_neg hlab]
      by_cases hr : (schedule_one_lecture_session rnd st cs).2 = true
      · rw [if_pos hr]
        exact lecture_actual_ne rnd st cs n hn
      · rw [if_neg hr]
        exact lecture_actual_ne rnd st cs n hn

/-- The round body preserves the per-course accounting invariant. -/
lemma run_course_tracked (rnd : String × String → Nat) (st : SolverState) (cs : CourseState)
    (h : CourseTracked st cs) :
    CourseTracked (run_course rnd st cs).1 (run_course rnd st cs).2.1 := by
  obtain ⟨h1, h2, h3⟩ := h
  simp only [run_course]
  by_cases h0 : cs.remaining = 0
  · rw [if_pos h0]
    exact ⟨h1, h2, h3⟩
  · rw [if_neg h0]
    by_cases hlab : cs.session_type = "lab"
    · rw [if_pos hlab]
      by_cases hr : (schedule_one_lab_block rnd st cs).2 = true
      · rw [if_pos hr]
        have hu : unit_of cs = default_lab_session_length := by
          unfold unit_of
          rw [if_pos hlab]
        refine ⟨le_trans (Nat.sub_le _ _) h1, ?_, ?_⟩
        · rw [show ({ cs with remaining := cs.remaining - 1 } : CourseState).name
            = cs.name from rfl]
          rw [lab_actual_self rnd st cs hr, h2]
          rw [show unit_of { cs with remaining := cs.remaining - 1 } = unit_of cs from rfl, hu]
          simp only [default_lab_session_length]
          omega
        · rw [lab_expected rnd st cs]
          exact h3
      · rw [if_neg hr]
        rw [lab_fail rnd st cs (Bool.eq_false_iff.mpr hr)]
        exact ⟨h1, h2, h3⟩
    · rw [if_neg hlab]
      by_cases hr : (schedule_one_lecture_session rnd st cs).2 = true
      · rw [if_pos hr]
        have hu : unit_of cs = 1 := by
          unfold unit_of
          rw [if_neg hlab]
        refine ⟨le_trans (Nat.sub_le _ _) h1, ?_, ?_⟩
        · rw [show ({ cs with remaining := cs.remaining - 1 } : CourseState).name
            = cs.name from rfl]
          rw [lecture_actual_self rnd st cs hr, h2]
          rw [show unit_of { cs with remaining := cs.remaining - 1 } = unit_of cs from rfl, hu]
          dsimp only
          omega
        · rw [lecture_expected rnd st cs]
          exact h3
      · rw [if_neg hr]
        rw [lecture_fail rnd st cs (Bool.eq_false_iff.mpr hr)]
        exact ⟨h1, h2, h3⟩

/-- One round never touches the expected counters. -/
lemma run_round_expected (rnd : Nat → String × String → Nat) :
    ∀ (states : List CourseState) (st : SolverState) (i : Nat),
      (run_round rnd st states i).1.expected_weekly = st.expected_weekly
  | [], _, _ => rfl
  | cs :: rest, st, i => by
    simp only [run_round]
    rw [run_round_expected rnd rest _ (i + 1), run_course_expected (rnd i) st cs]

/-- One round only bumps the counters of its own courses. -/
lemma run_round_actual_ne (rnd : Nat → String × String → Nat) :
    ∀ (states : List CourseState) (st : SolverState) (i : Nat) (n : String),
      (∀ cs ∈ states, n ≠ cs.name) →
      lookupN (run_round rnd st states i).1.actual_weekly n = lookupN st.actual_weekly n
  | [], _, _, _, _ => rfl
  | cs :: rest, st, i, n, h => by
    simp only [run_round]
    rw [run_round_actual_ne rnd rest _ (i + 1) n
      (fun c hc => h c (List.mem_cons_of_mem _ hc)),
      run_course_actual_ne (rnd i) st cs n (h cs (List.mem_cons_self _ _))]

/-- One round keeps the course names (in order). -/
lemma run_round_names (rnd : Nat → String × String → Nat) :
    ∀ (states : List CourseState) (st : SolverState) (i : Nat),
      ((run_round rnd st states i).2.1).map (fun cs => cs.name)
        = states.map (fun cs => cs.name)
  | [], _, _ => rfl
  | cs :: rest, st, i => by
    simp only [run_round, List.map_cons]
    rw [run_round_names rnd rest _ (i + 1), (run_course_fields (rnd i) st cs).1]

/-- One round preserves the accounting invariant of the whole list. -/
lemma run_round_tracked (rnd : Nat → String × String → Nat) :
    ∀ (states : List CourseState) (st : SolverState) (i : Nat),
      Tracked st states → Tracked (run_round rnd st states i).1 (run_round rnd st states i).2.1
  | [], _, _, h => h
  | cs :: rest, st, i, h => by
    obtain ⟨hnodup, hall⟩ := h
    rw [List.map_cons, List.nodup_cons] at hnodup
    obtain ⟨hhead, htail⟩ := hnodup
    have hnames_rest : ∀ c ∈ rest, ¬ cs.name = c.name := by
      intro c hc he
      exact hhead (he ▸ List.mem_map_of_mem (fun x => x.name) hc)
    have htracked_rest : ∀ c ∈ rest, CourseTracked (run_course (rnd i) st cs).1 c := by
      intro c hc
      refine CourseTracked_of_lookup_eq ?_ ?_ (hall c (List.mem_cons_of_mem _ hc))
      · exact run_course_actual_ne (rnd i) st cs c.name
          (fun he => hnames_rest c hc he.symm)
      · rw [run_course_expected (rnd i) st cs]
    have ihtail := run_round_tracked rnd rest (run_course (rnd i) st cs).1 (i + 1)
      ⟨htail, htracked_rest⟩
    have hheadc : CourseTracked (run_round rnd (run_course (rnd i) st cs).1 rest (i + 1)).1
        (run_course (rnd i) st cs).2.1 := by
      refine CourseTracked_of_lookup_eq ?_ ?_
        (run_course_tracked (rnd i) st cs (hall cs (List.mem_cons_self _ _)))
      · rw [(run_course_fields (rnd i) st cs).1]
        exact run_round_actual_ne rnd rest _ (i + 1) cs.name hnames_rest
      · rw [run_round_expected rnd rest _ (i + 1)]
    constructor
    · simp only [run_round, List.map_cons]
      rw [run_round_names rnd rest _ (i + 1), (run_course_fields (rnd i) st cs).1]
      rw [List.nodup_cons]
      exact ⟨hhead, htail⟩
    · intro x hx
      simp only [run_round] at hx ⊢
      rcases List.mem_cons.mp hx with rfl | hxr
      · exact hheadc
      · exact ihtail.2 x hxr

/-- The bounded round loop preserves the accounting invariant. -/
lemma run_rounds_tracked (rnd : Nat → Nat → String × String → Nat) :
    ∀ (fuel idx : Nat) (st : SolverState) (states : List CourseState),
      Tracked st states →
      Tracked (run_rounds rnd fuel idx st states).1 (run_rounds rnd fuel idx st states).2.1
  | 0, _, _, _, h => h
  | fuel + 1, idx, st, states, h => by
    simp only [run_rounds]
    by_cases hp : (run_round (rnd idx) st states 0).2.2 = true
    · rw [if_pos hp]
      exact run_rounds_tracked rnd fuel (idx + 1) _ _ (run_round_tracked (rnd idx) states st 0 h)
    · rw [if_neg hp]
      exact run_round_tracked (rnd idx) states st 0 h

/-- Looking up the expected-units table built from distinct course names. -/
lemma lookupN_expected_map :
    ∀ (infos : List CourseInfo) (info : CourseInfo),
      ((infos.map (fun i => i.name)).Nodup) → info ∈ infos →
      lookupN (infos.map (fun i => (i.name, expected_of i))) info.name = expected_of info
  | [], _, _, h => absurd h (List.not_mem_nil _)
  | a :: rest, info, hnodup, h => by
    rw [List.map_cons, List.nodup_cons] at hnodup
    rcases List.mem_cons.mp h with rfl | ht
    · rw [List.map_cons]
      exact lookupN_cons_eq rfl
    · have hne : ¬ a.name = info.name := by
        intro he
        exact hnodup.1 (he ▸ List.mem_map_of_mem (fun i => i.name) ht)
      rw [List.map_cons, lookupN_cons_ne hne]
      exact lookupN_expected_map rest info hnodup.2 ht

/-- The freshly built state and course list satisfy the accounting
invariant. -/
lemma Tracked_build (infos : List CourseInfo)
    (h : (infos.map (fun i => i.name)).Nodup) :
    Tracked (build_course_states infos).1 (build_course_states infos).2 := by
  constructor
  · have hperm : List.Perm (sort_course_states (infos.map build_course_state))
        (infos.map build_course_state) := List.perm_insertionSort _ _
    have hpermn := hperm.map (fun cs => cs.name)
    rw [List.map_map] at hpermn
    refine hpermn.nodup_iff.mpr ?_
    exact h
  · intro cs hcs
    rw [show (build_course_states infos).2
      = sort_course_states (infos.map build_course_state) from rfl,
      sort_course_states, List.mem_insertionSort] at hcs
    obtain ⟨info, hinfo, rfl⟩ := List.mem_map.mp hcs
    refine ⟨le_refl _, ?_, ?_⟩
    · rw [show (build_course_states infos).1.actual_weekly = [] from rfl, lookupN_nil]
      simp only [build_course_state]
      rw [Nat.sub_self, Nat.zero_mul]
    · rw [show (build_course_states infos).1.expected_weekly
        = infos.map (fun i => (i.name, expected_of i)) from rfl]
      rw [show (build_course_state info).name = info.name from rfl]
      rw [lookupN_expected_map infos info h hinfo]
      simp only [build_course_state]
      unfold expected_of unit_of
      by_cases hl : info.session_type = "lab"
      · rw [if_pos hl, if_pos hl]
      · rw [if_neg hl, if_neg hl, Nat.mul_one]

/-- The whole pipeline keeps the accounting invariant. -/
lemma Tracked_solve (rnd rnd2 : Nat → Nat → String × String → Nat)
    (infos : List CourseInfo) (h : (infos.map (fun i => i.name)).Nodup) :
    Tracked (solve_timetable rnd rnd2 infos).1 (solve_timetable rnd rnd2 infos).2 := by
  have hmain : Tracked (solve_main rnd infos).1 (solve_main rnd infos).2 := by
    unfold solve_main
    refine Tracked_of_fields_eq
      (mark_deficits_proj (fun s => s.actual_weekly) (fun _ _ => rfl) _ _)
      (mark_deficits_proj (fun s => s.expected_weekly) (fun _ _ => rfl) _ _) ?_
    exact run_rounds_tracked rnd MAX_ROUNDS 0 _ _ (Tracked_build infos h)
  have hrelax : Tracked (emergency_relaxation rnd2 (solve_main rnd infos)).1
      (emergency_relaxation rnd2 (solve_main rnd infos)).2 := by
    unfold emergency_relaxation
    by_cases hc : unsatisfied_names (solve_main rnd infos).2 ≠ []
        ∧ (unsatisfied_names (solve_main rnd infos).2).length ≤ 3
    · rw [if_pos hc]
      exact run_rounds_tracked rnd2 RETRY_ROUNDS 0 _ _ (Tracked_of_fields_eq rfl rfl hmain)
    · rw [if_neg hc]
      exact hmain
  unfold solve_timetable
  exact Tracked_of_fields_eq
    (post_validate_proj (fun s => s.actual_weekly) (fun _ _ => rfl) _)
    (post_validate_proj (fun s => s.expected_weekly) (fun _ _ => rfl) _) hrelax

/-- The post-validation step never touches the weekly counters. -/
lemma pv_step_actual (s : SolverState) (pr : String × Nat) :
    (post_validate_step s pr).actual_weekly = s.actual_weekly := by
  unfold post_validate_step
  by_cases h1 : (lookupN s.actual_weekly pr.1 < pr.2
      && !(s.failure_reasons.any (fun q => q.1 = pr.1))) = true
  · rw [if_pos h1]
  · rw [if_neg h1]
    by_cases h2 : (lookupN s.actual_weekly pr.1 > pr.2
        && !(s.failure_reasons.any (fun q => q.1 = pr.1))) = true
    · rw [if_pos h2]
    · rw [if_neg h2]

/-- The post-validation step only ever appends failure reasons. -/
lemma pv_step_fr_mem (s : SolverState) (pr : String × Nat) (q : String × String)
    (h : q ∈ s.failure_reasons) : q ∈ (post_validate_step s pr).failure_reasons := by
  unfold post_validate_step
  by_cases h1 : (lookupN s.actual_weekly pr.1 < pr.2
      && !(s.failure_reasons.any (fun q => q.1 = pr.1))) = true
  · rw [if_pos h1]
    exact List.mem_append_left _ h
  · rw [if_neg h1]
    by_cases h2 : (lookupN s.actual_weekly pr.1 > pr.2
        && !(s.failure_reasons.any (fun q => q.1 = pr.1))) = true
    · rw [if_pos h2]
      exact List.mem_append_left _ h
    · rw [if_neg h2]
      exact h

/-- Existing failure reasons survive the post-validation fold. -/
lemma pv_fold_fr_mem :
    ∀ (l : List (String × Nat)) (s : SolverState) (q : String × String),
      q ∈ s.failure_reasons → q ∈ (l.foldl post_validate_step s).failure_reasons
  | [], _, _, h => h
  | pr :: rest, s, q, h => by
    rw [List.foldl_cons]
    exact pv_fold_fr_mem rest _ q (pv_step_fr_mem s pr q h)

/-- Processing another course's entry cannot tag this course. -/
lemma pv_step_untagged (s : SolverState) (pr : String × Nat) (course : String)
    (hne : ¬ pr.1 = course)
    (h : s.failure_reasons.any (fun q => q.1 = course) = false) :
    (post_validate_step s pr).failure_reasons.any (fun q => q.1 = course) = false := by
  unfold post_validate_step
  by_cases h1 : (lookupN s.actual_weekly pr.1 < pr.2
      && !(s.failure_reasons.any (fun q => q.1 = pr.1))) = true
  · rw [if_pos h1]
    simp [h, hne]
  · rw [if_neg h1]
    by_cases h2 : (lookupN s.actual_weekly pr.1 > pr.2
        && !(s.failure_reasons.any (fun q => q.1 = pr.1))) = true
    · rw [if_pos h2]
      simp [h, hne]
    · rw [if_neg h2]
      exact h

/-- An overfilled, untagged course is tagged `WEEKLY_OVERFILLED` by the
post-validation fold. -/
lemma pv_fold_overfill :
    ∀ (l : List (String × Nat)) (s : SolverState) (course : String) (expected : Nat),
      ((l.map (fun p => p.1)).Nodup) → (course, expected) ∈ l →
      expected < lookupN s.actual_weekly course →
      s.failure_reasons.any (fun q => q.1 = course) = false →
      (course, "WEEKLY_OVERFILLED_" ++ toString (lookupN s.actual_weekly course)
        ++ "/" ++ toString expected) ∈ (l.foldl post_validate_step s).failure_reasons
  | [], _, _, _, _, hmem, _, _ => absurd hmem (List.not_mem_nil _)
  | pr :: rest, s, course, expected, hnodup, hmem, hlt, huntag => by
    rw [List.map_cons, List.nodup_cons] at hnodup
    rw [List.foldl_cons]
    rcases List.mem_cons.mp hmem with heq | ht
    · have hpr1 : pr.1 = course := by rw [← heq]
      have hpr2 : pr.2 = expected := by rw [← heq]
      have hstep : (post_validate_step s pr).failure_reasons
          = s.failure_reasons ++ [(course, "WEEKLY_OVERFILLED_"
            ++ toString (lookupN s.actual_weekly course) ++ "/" ++ toString expected)] := by
        unfold post_validate_step
        rw [hpr1, hpr2]
        rw [if_neg (by simp [huntag, Nat.not_lt.mpr (Nat.le_of_lt hlt)]),
          if_pos (by simp [huntag, hlt])]
      have hmem2 : (course, "WEEKLY_OVERFILLED_"
          ++ toString (lookupN s.actual_weekly course) ++ "/" ++ toString expected)
          ∈ (post_validate_step s pr).failure_reasons := by
        rw [hstep]
        exact List.mem_append_right _ (List.mem_singleton_self _)
      exact pv_fold_fr_mem rest _ _ hmem2
    · have hne : ¬ pr.1 = course := by
        intro he
        exact hnodup.1 (he ▸ List.mem_map_of_mem (fun p => p.1) ht)
      have hlt2 : expected < lookupN (post_validate_step s pr).actual_weekly course := by
        rw [pv_step_actual]
        exact hlt
      have huntag2 := pv_step_untagged s pr course hne huntag
      have := pv_fold_overfill rest (post_validate_step s pr) course expected
        hnodup.2 ht hlt2 huntag2
      rwa [pv_step_actual] at this

/-- Claim C2: during and after every `solve_timetable` run, each course's
committed units (lecture sessions, or lab hours) never exceed its expected
weekly units; and `_post_validate_weekly_counts` tags any course whose
actual count exceeds its expected count (when no earlier failure reason
exists for it, as in any reachable run) with `WEEKLY_OVERFILLED`. -/
theorem C2_no_overfill :
    (∀ (rnd rnd2 : Nat → Nat → String × String → Nat) (infos : List CourseInfo),
        (infos.map (fun i => i.name)).Nodup →
        ∀ n ∈ ((solve_timetable rnd rnd2 infos).2.map (fun cs => cs.name)),
          lookupN (solve_timetable rnd rnd2 infos).1.actual_weekly n
            ≤ lookupN (solve_timetable rnd rnd2 infos).1.expected_weekly n)
      ∧ (∀ (st : SolverState) (course : String) (expected : Nat),
          ((st.expected_weekly.map (fun p => p.1)).Nodup) →
          (course, expected) ∈ st.expected_weekly →
          expected < lookupN st.actual_weekly course →
          st.failure_reasons.any (fun q => q.1 = course) = false →
          (course, "WEEKLY_OVERFILLED_" ++ toString (lookupN st.actual_weekly course)
            ++ "/" ++ toString expected)
            ∈ (post_validate_weekly_counts st).failure_reasons) := by
  constructor
  · intro rnd rnd2 infos hnodup n hn
    obtain ⟨cs, hcs, rfl⟩ := List.mem_map.mp hn
    obtain ⟨h1, h2, h3⟩ := (Tracked_solve rnd rnd2 infos hnodup).2 cs hcs
    rw [h2, h3]
    exact Nat.mul_le_mul_right _ (Nat.sub_le _ _)
  · intro st course expected hnodup hmem hlt huntag
    exact pv_fold_overfill st.expected_weekly st course expected hnodup hmem hlt huntag

/-- Witness course list for C2: one lecture course with no candidate slot. -/
def infosW : List CourseInfo :=
  [{ name := "c", faculty := "F", room := "R", session_type := "lecture",
     weekly_count := 1, available_slots := [] }]

/-- Trivial per-round tie-break oracle for witnesses. -/
def rndW : Nat → Nat → String × String → Nat := fun _ _ _ => 0

/-- Witness overfilled state for C2. -/
def stW : SolverState :=
  { init_state with expected_weekly := [("c", 1)], actual_weekly := [("c", 2)] }

/-- Witness for C2: the solved run never exceeds the target, and an
artificially overfilled state is tagged by the post-run validation. -/
theorem C2_witness :
    ("c" ∈ ((solve_timetable rndW rndW infosW).2.map (fun cs => cs.name)))
      ∧ lookupN (solve_timetable rndW rndW infosW).1.actual_weekly "c"
          ≤ lookupN (solve_timetable rndW rndW infosW).1.expected_weekly "c"
      ∧ ("c", "WEEKLY_OVERFILLED_" ++ toString (lookupN stW.actual_weekly "c")
          ++ "/" ++ toString 1) ∈ (post_validate_weekly_counts stW).failure_reasons :=
  ⟨by decide,
   C2_no_overfill.1 rndW rndW infosW (by decide) "c" (by decide),
   C2_no_overfill.2 stW "c" 1 (by decide) (by decide) (by decide) (by decide)⟩

/-- A no-progress course attempt leaves both state and course untouched. -/
lemma run_course_noprog (rnd : String × String → Nat) (st : SolverState) (cs : CourseState)
    (h : (run_course rnd st cs).2.2 = false) :
    (run_course rnd st cs).1 = st ∧ (run_course rnd st cs).2.1 = cs := by
  simp only [run_course] at h ⊢
  by_cases h0 : cs.remaining = 0
  · rw [if_pos h0]
    exact ⟨rfl, rfl⟩
  · rw [if_neg h0] at h ⊢
    by_cases hl : cs.session_type = "lab"
    · rw [if_pos hl] at h ⊢
      by_cases hs : (schedule_one_lab_block rnd st cs).2 = true
      · rw [if_pos hs] at h
        cases h
      · rw [if_neg hs]
        exact ⟨lab_fail rnd st cs (Bool.eq_false_iff.mpr hs), rfl⟩
    · rw [if_neg hl] at h ⊢
      by_cases hs : (schedule_one_lecture_session rnd st cs).2 = true
      · rw [if_pos hs] at h
        cases h
      · rw [if_neg hs]
        exact ⟨lecture_fail rnd st cs (Bool.eq_false_iff.mpr hs), rfl⟩

/-- A zero-placement round leaves both state and course list untouched. -/
lemma run_round_noprog (rnd : Nat → String × String → Nat) :
    ∀ (states : List CourseState) (st : SolverState) (i : Nat),
      (run_round rnd st states i).2.2 = false →
      (run_round rnd st states i).1 = st ∧ (run_round rnd st states i).2.1 = states
  | [], _, _, _ => ⟨rfl, rfl⟩
  | cs :: rest, st, i, h => by
    simp only [run_round] at h ⊢
    rw [Bool.or_eq_false_iff] at h
    obtain ⟨hst, hcs⟩ := run_course_noprog (rnd i) st cs h.1
    rw [hst] at h ⊢
    obtain ⟨hr1, hr2⟩ := run_round_noprog rnd rest st (i + 1) h.2
    rw [hr1, hcs, hr2]
    exact ⟨rfl, rfl⟩

/-- The round counter never exceeds the fuel. -/
lemma run_rounds_count_le (rnd : Nat → Nat → String × String → Nat) :
    ∀ (fuel idx : Nat) (st : SolverState) (states : List CourseState),
      (run_rounds rnd fuel idx st states).2.2 ≤ fuel
  | 0, _, _, _ => Nat.le_refl 0
  | fuel + 1, idx, st, states => by
    simp only [run_rounds]
    by_cases hp : (run_round (rnd idx) st states 0).2.2 = true
    · rw [if_pos hp]
      exact Nat.add_le_add_right (run_rounds_count_le rnd fuel (idx + 1) _ _) 1
    · rw [if_neg hp]
      exact Nat.succ_le_succ (Nat.zero_le fuel)

/-- The loop stops immediately after a zero-placement round, counting it
once, with the state and course list unchanged. -/
lemma run_rounds_stop (rnd : Nat → Nat → String × String → Nat)
    (fuel idx : Nat) (st : SolverState) (states : List CourseState)
    (h : (run_round (rnd idx) st states 0).2.2 = false) :
    run_rounds rnd (fuel + 1) idx st states = (st, states, 1) := by
  obtain ⟨h1, h2⟩ := run_round_noprog (rnd idx) states st 0 h
  simp only [run_rounds]
  rw [if_neg (by rw [h]; exact Bool.false_ne_true), h1, h2]

/-- Committing a session never changes the faculty-per-day cap. -/
lemma commit_slot_cap (st : SolverState) (day ts : String) (s : Session) :
    (commit_slot st day ts s).max_faculty_sessions_per_day
      = st.max_faculty_sessions_per_day := rfl

/-- Committing a lab block never changes the faculty-per-day cap. -/
lemma commit_block_cap (st : SolverState) (cs : CourseState) (day : String)
    (seg : List String) (bh : Nat) :
    (commit_block st cs day seg bh).max_faculty_sessions_per_day
      = st.max_faculty_sessions_per_day := by
  unfold commit_block
  apply foldl_preserves
  intro s ts
  rfl

/-- A lecture attempt never changes the faculty-per-day cap. -/
lemma lecture_cap (rnd : String × String → Nat) (st : SolverState) (cs : CourseState) :
    (schedule_one_lecture_session rnd st cs).1.max_faculty_sessions_per_day
      = st.max_faculty_sessions_per_day := by
  cases hs : List.insertionSort
      (fun a b => nat_lex_le (lecture_score rnd st cs.faculty cs.name a)
        (lecture_score rnd st cs.faculty cs.name b) = true)
      (cs.available_slots.filter (fun p =>
        is_slot_available st p.1 p.2 cs.faculty cs.room
          && !has_student_conflict st p.1 p.2 cs.name)) with
  | nil =>
    have heq : (schedule_one_lecture_session rnd st cs).1 = st := by
      simp only [schedule_one_lecture_session]
      rw [hs]
    rw [heq]
  | cons p rest =>
    have heq : (schedule_one_lecture_session rnd st cs).1
        = commit_slot st p.1 p.2 { course := cs.name, faculty := cs.faculty, room := cs.room, duration := 1, session_type := "lecture" } := by
      simp only [schedule_one_lecture_session]
      rw [hs]
    rw [heq, commit_slot_cap]

/-- A lab attempt never changes the faculty-per-day cap. -/
lemma lab_cap (rnd : String × String → Nat) (st : SolverState) (cs : CourseState) :
    (schedule_one_lab_block rnd st cs).1.max_faculty_sessions_per_day
      = st.max_faculty_sessions_per_day := by
  cases hs : List.insertionSort (fun a b => nat_lex_le a.2.2 b.2.2 = true)
      (valid_blocks rnd st cs default_lab_session_length) with
  | nil =>
    have heq : (schedule_one_lab_block rnd st cs).1 = st := by
      simp only [schedule_one_lab_block]
      rw [hs]
    rw [heq]
  | cons b rest =>
    have heq : (schedule_one_lab_block rnd st cs).1
        = commit_block st cs b.1 b.2.1 default_lab_session_length := by
      simp only [schedule_one_lab_block]
      rw [hs]
    rw [heq, commit_block_cap]

/-- A course attempt never changes the faculty-per-day cap. -/
lemma run_course_cap (rnd : String × String → Nat) (st : SolverState) (cs : CourseState) :
    (run_course rnd st cs).1.max_faculty_sessions_per_day
      = st.max_faculty_sessions_per_day := by
  simp only [run_course]
  by_cases h0 : cs.remaining = 0
  · rw [if_pos h0]
  · rw [if_neg h0]
    by_cases hl : cs.session_type = "lab"
    · rw [if_pos hl]
      by_cases hs : (schedule_one_lab_block rnd st cs).2 = true
      · rw [if_pos hs]
        exact lab_cap rnd st cs
      · rw [if_neg hs]
        exact lab_cap rnd st cs
    · rw [if_neg hl]
      by_cases hs : (schedule_one_lecture_session rnd st cs).2 = true
      · rw [if_pos hs]
        exact lecture_cap rnd st cs
      · rw [if_neg hs]
        exact lecture_cap rnd st cs

/-- A full round never changes the faculty-per-day cap. -/
lemma run_round_cap (rnd : Nat → String × String → Nat) :
    ∀ (states : List CourseState) (st : SolverState) (i : Nat),
      (run_round rnd st states i).1.max_faculty_sessions_per_day
        = st.max_faculty_sessions_per_day
  | [], _, _ => rfl
  | cs :: rest, st, i => by
    simp only [run_round]
    rw [run_round_cap rnd rest (run_course (rnd i) st cs).1 (i + 1)]
    exact run_course_cap (rnd i) st cs

/-- The whole round loop never changes the faculty-per-day cap. -/
lemma run_rounds_cap (rnd : Nat → Nat → String × String → Nat) :
    ∀ (fuel idx : Nat) (st : SolverState) (states : List CourseState),
      (run_rounds rnd fuel idx st states).1.max_faculty_sessions_per_day
        = st.max_faculty_sessions_per_day
  | 0, _, _, _ => rfl
  | fuel + 1, idx, st, states => by
    simp only [run_rounds]
    by_cases hp : (run_round (rnd idx) st states 0).2.2 = true
    · rw [if_pos hp]
      rw [run_rounds_cap rnd fuel (idx + 1) _ _]
      exact run_round_cap (rnd idx) states st 0
    · rw [if_neg hp]
      exact run_round_cap (rnd idx) states st 0

/-- Claim C4: the main loop runs at most `MAX_ROUNDS = 50` rounds and stops
right after a zero-placement round; the emergency relaxation runs only when
there are between 1 and 3 deficit courses, reruns the identical round
function for at most `RETRY_ROUNDS = 10` further rounds, and does so under
the raised faculty-per-day cap `RELAXED_FACULTY_CAP = 8` (versus 5
initially), which stays raised throughout the retry. -/
theorem C4_termination_bounds :
    (∀ (rnd : Nat → Nat → String × String → Nat) (fuel idx : Nat)
        (st : SolverState) (states : List CourseState),
        (run_rounds rnd fuel idx st states).2.2 ≤ fuel)
      ∧ MAX_ROUNDS = 50
      ∧ (∀ (rnd : Nat → Nat → String × String → Nat) (fuel idx : Nat)
          (st : SolverState) (states : List CourseState),
          (run_round (rnd idx) st states 0).2.2 = false →
          run_rounds rnd (fuel + 1) idx st states = (st, states, 1))
      ∧ (∀ (rnd2 : Nat → Nat → String × String → Nat)
          (m : SolverState × List CourseState),
          ¬ (unsatisfied_names m.2 ≠ [] ∧ (unsatisfied_names m.2).length ≤ 3) →
          emergency_relaxation rnd2 m = m)
      ∧ (∀ (rnd2 : Nat → Nat → String × String → Nat)
          (m : SolverState × List CourseState),
          unsatisfied_names m.2 ≠ [] → (unsatisfied_names m.2).length ≤ 3 →
          emergency_relaxation rnd2 m
            = ((run_rounds rnd2 RETRY_ROUNDS 0
                  { m.1 with max_faculty_sessions_per_day := RELAXED_FACULTY_CAP } m.2).1,
               (run_rounds rnd2 RETRY_ROUNDS 0
                  { m.1 with max_faculty_sessions_per_day := RELAXED_FACULTY_CAP } m.2).2.1))
      ∧ (∀ (rnd2 : Nat → Nat → String × String → Nat)
          (m : SolverState × List CourseState),
          unsatisfied_names m.2 ≠ [] → (unsatisfied_names m.2).length ≤ 3 →
          (emergency_relaxation rnd2 m).1.max_faculty_sessions_per_day
            = RELAXED_FACULTY_CAP)
      ∧ RETRY_ROUNDS = 10
      ∧ RELAXED_FACULTY_CAP = 8
      ∧ init_state.max_faculty_sessions_per_day = 5 := by
  refine ⟨?_, rfl, ?_, ?_, ?_, ?_, rfl, rfl, rfl⟩
  · intro rnd fuel idx st states
    exact run_rounds_count_le rnd fuel idx st states
  · intro rnd fuel idx st states h
    exact run_rounds_stop rnd fuel idx st states h
  · intro rnd2 m hc
    simp only [emergency_relaxation]
    rw [if_neg hc]
  · intro rnd2 m h1 h2
    simp only [emergency_relaxation]
    rw [if_pos ⟨h1, h2⟩]
  · intro rnd2 m h1 h2
    simp only [emergency_relaxation]
    rw [if_pos ⟨h1, h2⟩]
    exact run_rounds_cap rnd2 RETRY_ROUNDS 0 _ m.2

/-- Witness deficit course for C4: one unit still outstanding. -/
def csW : CourseState :=
  { name := "c", faculty := "F", room := "R", session_type := "lecture",
    weekly_target := 1, remaining := 1, available_slots := [], density := ⊤ }

/-- Witness for C4: concrete instances of the stop rule, the skip rule for
an empty deficit list, and the relaxed retry on a single-deficit run. -/
theorem C4_witness :
    ((run_round (rndW 0) init_state [] 0).2.2 = false
        ∧ run_rounds rndW (49 + 1) 0 init_state [] = (init_state, [], 1))
      ∧ emergency_relaxation rndW (init_state, []) = (init_state, [])
      ∧ emergency_relaxation rndW (init_state, [csW])
          = ((run_rounds rndW RETRY_ROUNDS 0
                { init_state with max_faculty_sessions_per_day := RELAXED_FACULTY_CAP }
                [csW]).1,
             (run_rounds rndW RETRY_ROUNDS 0
                { init_state with max_faculty_sessions_per_day := RELAXED_FACULTY_CAP }
                [csW]).2.1)
      ∧ (emergency_relaxation rndW (init_state, [csW])).1.max_faculty_sessions_per_day
          = RELAXED_FACULTY_CAP :=
  ⟨⟨rfl, C4_termination_bounds.2.2.1 rndW 49 0 init_state [] rfl⟩,
   C4_termination_bounds.2.2.2.1 rndW (init_state, []) (by decide),
   C4_termination_bounds.2.2.2.2.1 rndW (init_state, [csW]) (by decide) (by decide),
   C4_termination_bounds.2.2.2.2.2.1 rndW (init_state, [csW]) (by decide) (by decide)⟩

end Timetable
